import Mathlib

/-!
# The xAL address schema and its JSON mapping

`xal.go` declares the OASIS xAL address records as Go struct types whose fields carry
`json:"<key>,omitempty"` tags; it holds no function.  What the package does is what
`encoding/json` derives from those declarations.  This development

* transcribes the declarations as data (`TypeName`, `GoType`, `Field`, `decl`), one entry
  per declared type and per field, in source order;
* gives the Go values of the declared types as trees (`Value`): strings, pointers that are
  nil or point at a value, slices that are nil or hold their elements, structs;
* embeds `json.Marshal` and `json.Unmarshal` for these types (`Marshal`, `Unmarshal`): one
  object member per struct field in declaration order under the key of its tag, `omitempty`
  fields left out when empty, `null` for a nil pointer or nil slice; decoding resolves an
  object key to the field with that key (exact match first, then up to case), skips unknown
  keys, allocates a pointee for a nil pointer, sets pointers and slices to nil on `null`.

A Go string is the sequence of bytes it holds, which need not be UTF-8: writing a string
and reading a JSON string both coerce it to valid UTF-8, every byte that starts no
well-formed encoding becoming U+FFFD (`coerceUTF8`, after unicode/utf8 and the string
writer and reader of encoding/json).  `Unmarshal` reports an error for a document that
nests more than 10000 arrays and objects, the limit of the library's scanner
(`maxNestingDepth`).

JSON documents are taken as trees of values, not as text: escaping, white space and the
spelling of numbers are not part of the embedding.  Values are trees: a pointer cycle is
not a value.  A slice is the sequence of elements within its length; what encoding/json
finds in the spare capacity of a slice that it decodes into once more, as it does for a
document that gives the same sequence field more than once, is not part of the embedding.
-/

namespace xal

/-- Names of the 49 types declared in the `type ( ... )` group of xal.go. -/
inductive TypeName where
  | XAL | AddressDetails | AddressLine | AddressLines
  | AdministrativeArea | AdministrativeAreaName | BuildingName | Country
  | CountryName | CountryNameCode | Locality | LocalityName
  | Department | DepartmentName | DependentLocality | DependentLocalityName
  | DependentLocalityNumber | DependentThoroughfare | LargeMailUser | LargeMailUserIdentifier
  | LargeMailUserName | PostBox | PostBoxNumber | PostOffice
  | PostOfficeName | PostOfficeNumber | PostalCode | PostalCodeNumber
  | PostalCodeNumberExtension | Premise | PremiseLocation | PremiseName
  | PremiseNumber | PremiseNumberSuffix | SubPremise | SubPremiseName
  | SubPremiseNumber | SubPremiseNumberSuffix | Thoroughfare | ThoroughfareLeadingType
  | ThoroughfareName | ThoroughfareNumber | ThoroughfareNumberFrom | ThoroughfareNumberRange
  | ThoroughfareNumberSuffix | ThoroughfareNumberTo | ThoroughfarePostDirection | ThoroughfarePreDirection
  | ThoroughfareTrailingType
  deriving DecidableEq

/-- The type expressions used for struct fields in xal.go: `string`, `*T` and `[]*T`. -/
inductive GoType where
  | string
  | pointer (elem : TypeName)
  | sliceOf (elem : TypeName)
  deriving DecidableEq

/-- One struct field as written in the source: Go name, type, and the text of its
`json:"..."` struct tag. -/
structure Field where
  name : String
  type : GoType
  tag : String
  deriving DecidableEq

/-- The right-hand side of a type declaration: `struct { ... }`, `string`, or `[]*T`. -/
inductive Decl where
  | struct (fields : List Field)
  | string
  | slice (elem : TypeName)
  deriving DecidableEq

/-- The declarations of xal.go, in source order, one entry per declared type. -/
def decl : TypeName → Decl
  | .XAL => .struct [  -- xal.go:15-18
      ⟨"AttrVersion", .string, "attr_version,omitempty"⟩,
      ⟨"AddressDetails", .sliceOf .AddressDetails, "address_details,omitempty"⟩]
  | .AddressDetails => .struct [  -- xal.go:22-32
      ⟨"AttrAddressType", .string, "attr_address_type,omitempty"⟩,
      ⟨"AttrCurrentStatus", .string, "attr_current_status,omitempty"⟩,
      ⟨"AttrUsage", .string, "attr_usage,omitempty"⟩,
      ⟨"AttrValidFromDate", .string, "attr_valid_from_date,omitempty"⟩,
      ⟨"AttrValidToDate", .string, "attr_valid_to_date,omitempty"⟩,
      ⟨"AddressLines", .pointer .AddressLines, "address_lines,omitempty"⟩,
      ⟨"AdministrativeArea", .pointer .AdministrativeArea, "administrative_area,omitempty"⟩,
      ⟨"Country", .pointer .Country, "country,omitempty"⟩,
      ⟨"Locality", .pointer .Locality, "locality,omitempty"⟩]
  | .AddressLine => .struct [  -- xal.go:37-41
      ⟨"AttrType", .string, "attr_type,omitempty"⟩,
      ⟨"AttrCode", .string, "attr_code,omitempty"⟩,
      ⟨"Text", .string, "text,omitempty"⟩]
  | .AddressLines => .slice .AddressLine  -- xal.go:44
  | .AdministrativeArea => .struct [  -- xal.go:48-54
      ⟨"AttrType", .string, "attr_type,omitempty"⟩,
      ⟨"AttrUsageType", .string, "attr_usage_type,omitempty"⟩,
      ⟨"AttrIndicator", .string, "attr_indicator,omitempty"⟩,
      ⟨"AdministrativeAreaName", .sliceOf .AdministrativeAreaName, "administrative_area_name,omitempty"⟩,
      ⟨"Locality", .pointer .Locality, "locality,omitempty"⟩]
  | .AdministrativeAreaName => .struct [  -- xal.go:57-61
      ⟨"AttrType", .string, "attr_type,omitempty"⟩,
      ⟨"AttrCode", .string, "attr_code,omitempty"⟩,
      ⟨"Text", .string, "text,omitempty"⟩]
  | .BuildingName => .struct [  -- xal.go:64-69
      ⟨"AttrType", .string, "attr_type,omitempty"⟩,
      ⟨"AttrTypeOccurrence", .string, "attr_type_occurrence,omitempty"⟩,
      ⟨"AttrCode", .string, "attr_code,omitempty"⟩,
      ⟨"Text", .string, "text,omitempty"⟩]
  | .Country => .struct [  -- xal.go:72-78
      ⟨"AdministrativeArea", .pointer .AdministrativeArea, "administrative_area,omitempty"⟩,
      ⟨"CountryName", .pointer .CountryName, "country_name,omitempty"⟩,
      ⟨"CountryNameCode", .pointer .CountryNameCode, "country_name_code,omitempty"⟩,
      ⟨"Locality", .pointer .Locality, "locality,omitempty"⟩,
      ⟨"Thoroughfare", .pointer .Thoroughfare, "thoroughfare,omitempty"⟩]
  | .CountryName => .struct [  -- xal.go:81-85
      ⟨"AttrType", .string, "attr_type,omitempty"⟩,
      ⟨"AttrCode", .string, "attr_code,omitempty"⟩,
      ⟨"Text", .string, "text,omitempty"⟩]
  | .CountryNameCode => .struct [  -- xal.go:92-96
      ⟨"AttrScheme", .string, "attr_scheme,omitempty"⟩,
      ⟨"AttrCode", .string, "attr_code,omitempty"⟩,
      ⟨"Text", .string, "text,omitempty"⟩]
  | .Locality => .struct [  -- xal.go:102-114
      ⟨"AttrType", .string, "attr_type,omitempty"⟩,
      ⟨"AttrUsageType", .string, "attr_usage_type,omitempty"⟩,
      ⟨"AttrIndicator", .string, "attr_indicator,omitempty"⟩,
      ⟨"DependentLocality", .pointer .DependentLocality, "dependent_locality,omitempty"⟩,
      ⟨"LargeMailUser", .pointer .LargeMailUser, "large_mail_user,omitempty"⟩,
      ⟨"LocalityName", .sliceOf .LocalityName, "locality_name,omitempty"⟩,
      ⟨"PostBox", .pointer .PostBox, "post_box,omitempty"⟩,
      ⟨"PostOffice", .pointer .PostOffice, "post_office,omitempty"⟩,
      ⟨"PostalCode", .pointer .PostalCode, "postal_code,omitempty"⟩,
      ⟨"Premise", .pointer .Premise, "premise,omitempty"⟩,
      ⟨"Thoroughfare", .pointer .Thoroughfare, "thoroughfare,omitempty"⟩]
  | .LocalityName => .struct [  -- xal.go:117-121
      ⟨"AttrType", .string, "attr_type,omitempty"⟩,
      ⟨"AttrCode", .string, "attr_code,omitempty"⟩,
      ⟨"Text", .string, "text,omitempty"⟩]
  | .Department => .struct [  -- xal.go:124-127
      ⟨"AttrType", .string, "attr_type,omitempty"⟩,
      ⟨"DepartmentName", .pointer .DepartmentName, "department_name,omitempty"⟩]
  | .DepartmentName => .struct [  -- xal.go:130-134
      ⟨"AttrType", .string, "attr_type,omitempty"⟩,
      ⟨"AttrCode", .string, "attr_code,omitempty"⟩,
      ⟨"Text", .string, "text,omitempty"⟩]
  | .DependentLocality => .struct [  -- xal.go:147-158
      ⟨"AttrConnector", .string, "attr_connector,omitempty"⟩,
      ⟨"AttrType", .string, "attr_type,omitempty"⟩,
      ⟨"AttrUsageType", .string, "attr_usage_type,omitempty"⟩,
      ⟨"DependentLocality", .pointer .DependentLocality, "dependent_locality,omitempty"⟩,
      ⟨"DependentLocalityName", .sliceOf .DependentLocalityName, "dependent_locality_name,omitempty"⟩,
      ⟨"DependentLocalityNumber", .sliceOf .DependentLocalityNumber, "dependent_locality_number,omitempty"⟩,
      ⟨"LargeMailUser", .pointer .LargeMailUser, "large_mail_user,omitempty"⟩,
      ⟨"PostOffice", .pointer .PostOffice, "post_office,omitempty"⟩,
      ⟨"Premise", .pointer .Premise, "premise,omitempty"⟩,
      ⟨"Thoroughfare", .pointer .Thoroughfare, "thoroughfare,omitempty"⟩]
  | .DependentLocalityName => .struct [  -- xal.go:161-165
      ⟨"AttrType", .string, "attr_type,omitempty"⟩,
      ⟨"AttrCode", .string, "attr_code,omitempty"⟩,
      ⟨"Text", .string, "text,omitempty"⟩]
  | .DependentLocalityNumber => .struct [  -- xal.go:169-173
      ⟨"AttrNameNumberOccurrence", .string, "attr_name_number_occurrence,omitempty"⟩,
      ⟨"AttrCode", .string, "attr_code,omitempty"⟩,
      ⟨"Text", .string, "text,omitempty"⟩]
  | .DependentThoroughfare => .struct [  -- xal.go:176-181
      ⟨"AttrType", .string, "attr_type,omitempty"⟩,
      ⟨"ThoroughfareName", .pointer .ThoroughfareName, "thoroughfare_name,omitempty"⟩,
      ⟨"ThoroughfarePreDirection", .pointer .ThoroughfarePreDirection, "thoroughfare_pre_direction,omitempty"⟩,
      ⟨"ThoroughfareTrailingType", .pointer .ThoroughfareTrailingType, "thoroughfare_trailing_type,omitempty"⟩]
  | .LargeMailUser => .struct [  -- xal.go:190-196
      ⟨"AttrType", .string, "attr_type,omitempty"⟩,
      ⟨"BuildingName", .pointer .BuildingName, "building_name,omitempty"⟩,
      ⟨"Department", .pointer .Department, "department,omitempty"⟩,
      ⟨"LargeMailUserIdentifier", .pointer .LargeMailUserIdentifier, "large_mail_user_identifier,omitempty"⟩,
      ⟨"LargeMailUserName", .pointer .LargeMailUserName, "large_mail_user_name,omitempty"⟩]
  | .LargeMailUserIdentifier => .struct [  -- xal.go:201-206
      ⟨"AttrType", .string, "attr_type,omitempty"⟩,
      ⟨"AttrIndicator", .string, "attr_indicator,omitempty"⟩,
      ⟨"AttrCode", .string, "attr_code,omitempty"⟩,
      ⟨"Text", .string, "text,omitempty"⟩]
  | .LargeMailUserName => .struct [  -- xal.go:211-215
      ⟨"AttrType", .string, "attr_type,omitempty"⟩,
      ⟨"AttrCode", .string, "attr_code,omitempty"⟩,
      ⟨"Text", .string, "text,omitempty"⟩]
  | .PostBox => .struct [  -- xal.go:222-227
      ⟨"AttrType", .string, "attr_type,omitempty"⟩,
      ⟨"AttrIndicator", .string, "attr_indicator,omitempty"⟩,
      ⟨"PostBoxNumber", .pointer .PostBoxNumber, "post_box_number,omitempty"⟩,
      ⟨"PostalCode", .pointer .PostalCode, "postal_code,omitempty"⟩]
  | .PostBoxNumber => .struct [  -- xal.go:230-233
      ⟨"AttrCode", .string, "attr_code,omitempty"⟩,
      ⟨"Text", .string, "text,omitempty"⟩]
  | .PostOffice => .struct [  -- xal.go:238-244
      ⟨"AttrType", .string, "attr_type,omitempty"⟩,
      ⟨"AttrIndicator", .string, "attr_indicator,omitempty"⟩,
      ⟨"PostOfficeName", .pointer .PostOfficeName, "post_office_name,omitempty"⟩,
      ⟨"PostOfficeNumber", .pointer .PostOfficeNumber, "post_office_number,omitempty"⟩,
      ⟨"PostalCode", .pointer .PostalCode, "postal_code,omitempty"⟩]
  | .PostOfficeName => .struct [  -- xal.go:249-252
      ⟨"AttrCode", .string, "attr_code,omitempty"⟩,
      ⟨"Text", .string, "text,omitempty"⟩]
  | .PostOfficeNumber => .struct [  -- xal.go:257-260
      ⟨"AttrIndicator", .string, "attr_indicator,omitempty"⟩,
      ⟨"Text", .string, "text,omitempty"⟩]
  | .PostalCode => .struct [  -- xal.go:265-269
      ⟨"AttrType", .string, "attr_type,omitempty"⟩,
      ⟨"PostalCodeNumber", .pointer .PostalCodeNumber, "postal_code_number,omitempty"⟩,
      ⟨"PostalCodeNumberExtension", .pointer .PostalCodeNumberExtension, "postal_code_number_extension,omitempty"⟩]
  | .PostalCodeNumber => .struct [  -- xal.go:275-279
      ⟨"AttrType", .string, "attr_type,omitempty"⟩,
      ⟨"AttrCode", .string, "attr_code,omitempty"⟩,
      ⟨"Text", .string, "text,omitempty"⟩]
  | .PostalCodeNumberExtension => .struct [  -- xal.go:283-287
      ⟨"AttrType", .string, "attr_type,omitempty"⟩,
      ⟨"AttrNumberExtensionSeparator", .string, "attr_number_extension_separator,omitempty"⟩,
      ⟨"Text", .string, "text,omitempty"⟩]
  | .Premise => .struct [  -- xal.go:302-315
      ⟨"AttrPremiseDependency", .string, "attr_premise_dependency,omitempty"⟩,
      ⟨"AttrPremiseDependencyType", .string, "attr_premise_dependency_type,omitempty"⟩,
      ⟨"AttrType", .string, "attr_type,omitempty"⟩,
      ⟨"AttrPremiseThoroughfareConnector", .string, "attr_premise_thoroughfare_connector,omitempty"⟩,
      ⟨"BuildingName", .pointer .BuildingName, "building_name,omitempty"⟩,
      ⟨"PostalCode", .pointer .PostalCode, "postal_code,omitempty"⟩,
      ⟨"Premise", .pointer .Premise, "premise,omitempty"⟩,
      ⟨"PremiseLocation", .pointer .PremiseLocation, "premise_location,omitempty"⟩,
      ⟨"PremiseName", .pointer .PremiseName, "premise_name,omitempty"⟩,
      ⟨"PremiseNumber", .pointer .PremiseNumber, "premise_number,omitempty"⟩,
      ⟨"PremiseNumberSuffix", .pointer .PremiseNumberSuffix, "premise_number_suffix,omitempty"⟩,
      ⟨"SubPremise", .sliceOf .SubPremise, "sub_premise,omitempty"⟩]
  | .PremiseLocation => .struct [  -- xal.go:318-321
      ⟨"AttrCode", .string, "attr_code,omitempty"⟩,
      ⟨"Text", .string, "text,omitempty"⟩]
  | .PremiseName => .struct [  -- xal.go:328-331
      ⟨"AttrTypeOccurrence", .string, "attr_type_occurrence,omitempty"⟩,
      ⟨"Text", .string, "text,omitempty"⟩]
  | .PremiseNumber => .struct [  -- xal.go:337-345
      ⟨"AttrNumberType", .string, "attr_number_type,omitempty"⟩,
      ⟨"AttrType", .string, "attr_type,omitempty"⟩,
      ⟨"AttrIndicator", .string, "attr_indicator,omitempty"⟩,
      ⟨"AttrIndicatorOccurrence", .string, "attr_indicator_occurrence,omitempty"⟩,
      ⟨"AttrNumberTypeOccurrence", .string, "attr_number_type_occurrence,omitempty"⟩,
      ⟨"Code", .string, "code,omitempty"⟩,
      ⟨"Text", .string, "text,omitempty"⟩]
  | .PremiseNumberSuffix => .struct [  -- xal.go:348-353
      ⟨"AttrNumberPrefixSeparator", .string, "attr_number_prefix_separator,omitempty"⟩,
      ⟨"AttrType", .string, "attr_type,omitempty"⟩,
      ⟨"AttrCode", .string, "attr_code,omitempty"⟩,
      ⟨"Text", .string, "text,omitempty"⟩]
  | .SubPremise => .struct [  -- xal.go:358-364
      ⟨"AttrType", .string, "attr_type,omitempty"⟩,
      ⟨"SubPremise", .sliceOf .SubPremise, "sub_premise,omitempty"⟩,
      ⟨"SubPremiseName", .sliceOf .SubPremiseName, "sub_premise_name,omitempty"⟩,
      ⟨"SubPremiseNumber", .sliceOf .SubPremiseNumber, "sub_premise_number,omitempty"⟩,
      ⟨"SubPremiseNumberSuffix", .pointer .SubPremiseNumberSuffix, "sub_premise_number_suffix,omitempty"⟩]
  | .SubPremiseName => .struct [  -- xal.go:367-372
      ⟨"AttrType", .string, "attr_type,omitempty"⟩,
      ⟨"AttrTypeOccurrence", .string, "attr_type_occurrence,omitempty"⟩,
      ⟨"AttrCode", .string, "attr_code,omitempty"⟩,
      ⟨"Text", .string, "text,omitempty"⟩]
  | .SubPremiseNumber => .struct [  -- xal.go:380-388
      ⟨"AttrIndicator", .string, "attr_indicator,omitempty"⟩,
      ⟨"AttrIndicatorOccurrence", .string, "attr_indicator_occurrence,omitempty"⟩,
      ⟨"AttrNumberTypeOccurrence", .string, "attr_number_type_occurrence,omitempty"⟩,
      ⟨"AttrPremiseNumberSeparator", .string, "attr_premise_number_separator,omitempty"⟩,
      ⟨"AttrType", .string, "attr_type,omitempty"⟩,
      ⟨"AttrCode", .string, "attr_code,omitempty"⟩,
      ⟨"Text", .string, "text,omitempty"⟩]
  | .SubPremiseNumberSuffix => .struct [  -- xal.go:391-396
      ⟨"AttrNumberSuffixSeparator", .string, "attr_number_suffix_separator,omitempty"⟩,
      ⟨"AttrType", .string, "attr_type,omitempty"⟩,
      ⟨"AttrCode", .string, "attr_code,omitempty"⟩,
      ⟨"Text", .string, "text,omitempty"⟩]
  | .Thoroughfare => .struct [  -- xal.go:404-422
      ⟨"AttrDependentThoroughfares", .string, "attr_dependent_thoroughfares,omitempty"⟩,
      ⟨"AttrDependentThoroughfaresConnector", .string, "attr_dependent_thoroughfares_connector,omitempty"⟩,
      ⟨"AttrDependentThoroughfaresIndicator", .string, "attr_dependent_thoroughfares_indicator,omitempty"⟩,
      ⟨"AttrDependentThoroughfaresType", .string, "attr_dependent_thoroughfares_type,omitempty"⟩,
      ⟨"AttrType", .string, "attr_type,omitempty"⟩,
      ⟨"DependentLocality", .pointer .DependentLocality, "dependent_locality,omitempty"⟩,
      ⟨"DependentThoroughfare", .pointer .DependentThoroughfare, "dependent_thoroughfare,omitempty"⟩,
      ⟨"PostalCode", .pointer .PostalCode, "postal_code,omitempty"⟩,
      ⟨"Premise", .pointer .Premise, "premise,omitempty"⟩,
      ⟨"ThoroughfareLeadingType", .pointer .ThoroughfareLeadingType, "thoroughfare_leading_type,omitempty"⟩,
      ⟨"ThoroughfareName", .pointer .ThoroughfareName, "thoroughfare_name,omitempty"⟩,
      ⟨"ThoroughfareNumber", .pointer .ThoroughfareNumber, "thoroughfare_number,omitempty"⟩,
      ⟨"ThoroughfareNumberRange", .pointer .ThoroughfareNumberRange, "thoroughfare_number_range,omitempty"⟩,
      ⟨"ThoroughfareNumberSuffix", .pointer .ThoroughfareNumberSuffix, "thoroughfare_number_suffix,omitempty"⟩,
      ⟨"ThoroughfarePostDirection", .pointer .ThoroughfarePostDirection, "thoroughfare_post_direction,omitempty"⟩,
      ⟨"ThoroughfarePreDirection", .pointer .ThoroughfarePreDirection, "thoroughfare_pre_direction,omitempty"⟩,
      ⟨"ThoroughfareTrailingType", .pointer .ThoroughfareTrailingType, "thoroughfare_trailing_type,omitempty"⟩]
  | .ThoroughfareLeadingType => .string  -- xal.go:428
  | .ThoroughfareName => .string  -- xal.go:433
  | .ThoroughfareNumber => .struct [  -- xal.go:436-443
      ⟨"AttrType", .string, "attr_type,omitempty"⟩,
      ⟨"AttrNumberType", .string, "attr_number_type,omitempty"⟩,
      ⟨"AttrIndicator", .string, "attr_indicator,omitempty"⟩,
      ⟨"AttrIndicatorOccurrence", .string, "attr_indicator_occurrence,omitempty"⟩,
      ⟨"AttrNumberOccurrence", .string, "attr_number_occurrence,omitempty"⟩,
      ⟨"Text", .string, "text,omitempty"⟩]
  | .ThoroughfareNumberFrom => .struct [  -- xal.go:446-449
      ⟨"AttrCode", .string, "attr_code,omitempty"⟩,
      ⟨"ThoroughfareNumber", .pointer .ThoroughfareNumber, "thoroughfare_number,omitempty"⟩]
  | .ThoroughfareNumberRange => .struct [  -- xal.go:454-459
      ⟨"AttrIndicator", .string, "attr_indicator,omitempty"⟩,
      ⟨"AttrType", .string, "attr_type,omitempty"⟩,
      ⟨"ThoroughfareNumberFrom", .pointer .ThoroughfareNumberFrom, "thoroughfare_number_from,omitempty"⟩,
      ⟨"ThoroughfareNumberTo", .pointer .ThoroughfareNumberTo, "thoroughfare_number_to,omitempty"⟩]
  | .ThoroughfareNumberSuffix => .struct [  -- xal.go:462-467
      ⟨"AttrNumberSuffixSeparator", .string, "attr_number_suffix_separator,omitempty"⟩,
      ⟨"AttrType", .string, "attr_type,omitempty"⟩,
      ⟨"AttrCode", .string, "attr_code,omitempty"⟩,
      ⟨"Text", .string, "text,omitempty"⟩]
  | .ThoroughfareNumberTo => .struct [  -- xal.go:470-473
      ⟨"AttrCode", .string, "attr_code,omitempty"⟩,
      ⟨"ThoroughfareNumber", .pointer .ThoroughfareNumber, "thoroughfare_number,omitempty"⟩]
  | .ThoroughfarePostDirection => .struct [  -- xal.go:478-481
      ⟨"AttrCode", .string, "attr_code,omitempty"⟩,
      ⟨"Text", .string, "text,omitempty"⟩]
  | .ThoroughfarePreDirection => .struct [  -- xal.go:486-489
      ⟨"AttrCode", .string, "attr_code,omitempty"⟩,
      ⟨"Text", .string, "text,omitempty"⟩]
  | .ThoroughfareTrailingType => .struct [  -- xal.go:492-495
      ⟨"AttrCode", .string, "attr_code,omitempty"⟩,
      ⟨"Text", .string, "text,omitempty"⟩]

/-- The fields of a declared type; a type that is not a struct has none. -/
def fieldsOf (n : TypeName) : List Field :=
  match decl n with
  | .struct fs => fs
  | _ => []

/-- Splits a tag at its commas. -/
def splitComma : List Char → List (List Char)
  | [] => [[]]
  | c :: cs =>
    match splitComma cs with
    | [] => [[c]]
    | p :: ps => if c = ',' then [] :: p :: ps else (c :: p) :: ps

/-- The name part of a json tag: the text before the first comma. -/
def Field.key (f : Field) : String :=
  match splitComma f.tag.data with
  | [] => ""
  | p :: _ => String.mk p

/-- Whether the json tag lists the `omitempty` option after its name. -/
def Field.omitempty (f : Field) : Bool :=
  match splitComma f.tag.data with
  | [] => false
  | _ :: opts => opts.contains "omitempty".data

/-- A byte of a Go string. -/
abbrev Byte := Fin 256

/-- A Go string: a sequence of bytes, which need not be the UTF-8 encoding of a text. -/
abbrev GoString := List Byte

/-- The UTF-8 encoding of a character, as utf8.AppendRune writes it. -/
def encodeRune (c : Char) : GoString :=
  if c.toNat < 0x80 then [Fin.ofNat c.toNat]
  else if c.toNat < 0x800 then [Fin.ofNat (0xC0 + c.toNat / 64), Fin.ofNat (0x80 + c.toNat % 64)]
  else if c.toNat < 0x10000 then
    [Fin.ofNat (0xE0 + c.toNat / 4096), Fin.ofNat (0x80 + c.toNat / 64 % 64),
      Fin.ofNat (0x80 + c.toNat % 64)]
  else
    [Fin.ofNat (0xF0 + c.toNat / 262144), Fin.ofNat (0x80 + c.toNat / 4096 % 64),
      Fin.ofNat (0x80 + c.toNat / 64 % 64), Fin.ofNat (0x80 + c.toNat % 64)]

/-- The Go string written as a string literal of the source: the UTF-8 bytes of the text. -/
def utf8 (s : String) : GoString := s.data.flatMap encodeRune

/-- Whether a byte lies between two bounds. -/
def inRange (lo hi : Nat) (b : Byte) : Bool := decide (lo ≤ b.val) && decide (b.val ≤ hi)

/-- The table `first` of unicode/utf8 with its accept ranges: for a leading byte, the length
of the encoding it starts and the bounds accepted for the second byte; `none` for a byte
that starts no encoding (0x80 to 0xC1 and 0xF5 to 0xFF). -/
def first (b : Byte) : Option (Nat × Nat × Nat) :=
  if b.val < 0x80 then some (1, 0x80, 0xBF)
  else if b.val < 0xC2 then none
  else if b.val < 0xE0 then some (2, 0x80, 0xBF)
  else if b.val = 0xE0 then some (3, 0xA0, 0xBF)
  else if b.val = 0xED then some (3, 0x80, 0x9F)
  else if b.val < 0xF0 then some (3, 0x80, 0xBF)
  else if b.val = 0xF0 then some (4, 0x90, 0xBF)
  else if b.val < 0xF4 then some (4, 0x80, 0xBF)
  else if b.val = 0xF4 then some (4, 0x80, 0x8F)
  else none

/-- Whether a byte string starts with `k` continuation bytes, the first of them within the
given bounds and the others within 0x80 to 0xBF. -/
def continues (lo hi : Nat) : Nat → GoString → Bool
  | 0, _ => true
  | _ + 1, [] => false
  | k + 1, b :: rest => inRange lo hi b && continues 0x80 0xBF k rest

/-- The width utf8.DecodeRuneInString reports for the head of a byte string when the head
is a well-formed encoding; 0 when it is not (the decoder then reports RuneError with
width 1) or when the string is empty. -/
def runeLen : GoString → Nat
  | [] => 0
  | b :: rest =>
    match first b with
    | none => 0
    | some (size, lo, hi) => if continues lo hi (size - 1) rest then size else 0

/-- The coercion to valid UTF-8 that encoding/json applies to a string, on a byte string
whose first `k` bytes end an encoding already accepted: a well-formed encoding is copied,
any other byte is replaced by the encoding EF BF BD of U+FFFD. -/
def coerceFrom : Nat → GoString → GoString
  | _, [] => []
  | k + 1, b :: rest => b :: coerceFrom k rest
  | 0, b :: rest =>
    match runeLen (b :: rest) with
    | 0 => 0xEF :: 0xBF :: 0xBD :: coerceFrom 0 rest
    | k + 1 => b :: coerceFrom k rest

/-- The coercion of a Go string to valid UTF-8. -/
def coerceUTF8 (s : GoString) : GoString := coerceFrom 0 s

/-- Whether a byte string whose first `k` bytes end an encoding already accepted consists
of well-formed encodings only. -/
def validFrom : Nat → GoString → Bool
  | _, [] => true
  | k + 1, _ :: rest => validFrom k rest
  | 0, b :: rest =>
    match runeLen (b :: rest) with
    | 0 => false
    | k + 1 => validFrom k rest

/-- Whether a Go string is valid UTF-8 (utf8.ValidString). -/
def validUTF8 (s : GoString) : Bool := validFrom 0 s

/-- A Go value of one of the schema's types: a string, a pointer (nil or pointing at a
value), a slice (nil or holding its elements in order), or a struct of a declared type
with its field values in declaration order. -/
inductive Value where
  | str (s : GoString)
  | ptr (p : Option Value)
  | slice (s : Option (List Value))
  | struct (n : TypeName) (fields : List Value)

/-- A JSON document as a tree; a string holds the bytes of the string literal after
unescaping. -/
inductive JSON where
  | null
  | bool (b : Bool)
  | num (literal : String)
  | str (s : GoString)
  | arr (elems : List JSON)
  | obj (members : List (String × JSON))

/-- The zero value of a field type: the empty string, the nil pointer, the nil slice. -/
def zeroType : GoType → Value
  | .string => .str []
  | .pointer _ => .ptr none
  | .sliceOf _ => .slice none

/-- The zero value of a declared type (what `new(T)` points at): every field of a struct
at its zero value. -/
def zeroNamed (n : TypeName) : Value :=
  match decl n with
  | .struct fs => .struct n (fs.map fun f => zeroType f.type)
  | .string => .str []
  | .slice _ => .slice none

/-- The emptiness test behind `omitempty`: a string or slice of length 0, or a nil pointer.
A struct value is never empty. -/
def isEmptyValue : Value → Bool
  | .str s => s.isEmpty
  | .ptr none => true
  | .ptr (some _) => false
  | .slice none => true
  | .slice (some vs) => vs.isEmpty
  | .struct _ _ => false

mutual
/-- Whether a value is of the declared type `n`. -/
def hasNamedType (n : TypeName) : Value → Bool
  | .str _ => match decl n with
    | .string => true
    | _ => false
  | .slice none => match decl n with
    | .slice _ => true
    | _ => false
  | .slice (some vs) => match decl n with
    | .slice e => allPtrTo e vs
    | _ => false
  | .struct m vs => match decl n with
    | .struct fs => m == n && hasFieldTypes fs vs
    | _ => false
  | .ptr _ => false
/-- Whether a value is of type `*n`. -/
def hasPtrType (n : TypeName) : Value → Bool
  | .ptr none => true
  | .ptr (some v) => hasNamedType n v
  | _ => false
/-- Whether every value of a list is of type `*n`. -/
def allPtrTo (n : TypeName) : List Value → Bool
  | [] => true
  | v :: vs => hasPtrType n v && allPtrTo n vs
/-- Whether a list of values matches a list of fields, type by type. -/
def hasFieldTypes : List Field → List Value → Bool
  | [], [] => true
  | f :: fs, v :: vs => hasType f.type v && hasFieldTypes fs vs
  | _, _ => false
/-- Whether a value is of a field type. -/
def hasType : GoType → Value → Bool
  | t, .str _ => t == .string
  | t, .ptr none => match t with
    | .pointer _ => true
    | _ => false
  | t, .ptr (some v) => match t with
    | .pointer n => hasNamedType n v
    | _ => false
  | t, .slice none => match t with
    | .sliceOf _ => true
    | _ => false
  | t, .slice (some vs) => match t with
    | .sliceOf n => allPtrTo n vs
    | _ => false
  | _, .struct _ _ => false
end

mutual
/-- The JSON that encoding/json writes for a value: a string as a JSON string holding the
string coerced to valid UTF-8, a nil pointer
or nil slice as `null`, a pointer as its pointee, a slice as an array, and a struct as an
object holding, in declaration order, one member per field under the key of its tag,
leaving out the `omitempty` fields whose value is empty. -/
def marshal : Value → JSON
  | .str s => .str (coerceUTF8 s)
  | .ptr none => .null
  | .ptr (some v) => marshal v
  | .slice none => .null
  | .slice (some vs) => .arr (marshalElems vs)
  | .struct n vs => .obj (marshalFields (fieldsOf n) vs)
/-- The elements of a slice, in order. -/
def marshalElems : List Value → List JSON
  | [] => []
  | v :: vs => marshal v :: marshalElems vs
/-- The members written for the fields of a struct. -/
def marshalFields : List Field → List Value → List (String × JSON)
  | f :: fs, v :: vs =>
    if f.omitempty && isEmptyValue v then marshalFields fs vs
    else (f.key, marshal v) :: marshalFields fs vs
  | _, _ => []
end

/-- Case folding of one character of an object key against the ASCII keys of the schema:
ASCII capitals, and the two non-ASCII characters whose simple case folding is an ASCII
letter (the Kelvin sign and the long s). -/
def foldRune (c : Char) : Char :=
  if c = Char.ofNat 0x212A then 'k'
  else if c = Char.ofNat 0x17F then 's'
  else c.toLower

/-- Case folding of a key. -/
def foldName (s : String) : List Char := s.data.map foldRune

/-- Index of the first field satisfying `p`. -/
def indexWhere (p : Field → Bool) : List Field → Option Nat
  | [] => none
  | f :: fs => if p f then some 0 else (indexWhere p fs).map (· + 1)

/-- The field an object key is stored into: the field whose tag name is the key exactly,
otherwise the first field whose tag name equals the key up to case; `none` when there is
no such field (the member is then skipped). -/
def findField (fs : List Field) (key : String) : Option Nat :=
  match indexWhere (fun f => f.key == key) fs with
  | some i => some i
  | none => indexWhere (fun f => foldName f.key == foldName key) fs

/-- The pointee to decode into: the value a non-nil pointer points at, otherwise a freshly
allocated zero value. -/
def pointee (n : TypeName) : Value → Value
  | .ptr (some v) => v
  | _ => zeroNamed n

/-- The elements a slice currently holds. -/
def elemsOf : Value → List Value
  | .slice (some vs) => vs
  | _ => []

/-- The field values a struct currently holds. -/
def structFields : Value → List Value
  | .struct _ vs => vs
  | _ => []

/-- Where a JSON value is decoded to: a variable of a declared type, or a struct field
(equally a slice element) of a field type. -/
inductive Dest where
  | var (n : TypeName)
  | field (t : GoType)

/-- A JSON string stored where the underlying type is `d`: only a string takes it, and it
receives the literal coerced to valid UTF-8. -/
def storeString (d : Decl) (s : GoString) : Option Value :=
  match d with
  | .string => some (.str (coerceUTF8 s))
  | _ => none

mutual
/-- Decoding a JSON value into a destination that holds `cur`; `none` is a type error.
`null` sets a pointer or slice to nil and leaves a string or struct untouched.  Any other
JSON value, met at a pointer, is decoded into the pointee (allocated when the pointer is
nil).  A JSON string fills a string, an array a slice, an object a struct. -/
def decode : Dest → Value → JSON → Option Value
  | .var n, cur, .null =>
    match decl n with
    | .slice _ => some (.slice none)
    | _ => some cur
  | .field .string, cur, .null => some cur
  | .field (.pointer _), _, .null => some (.ptr none)
  | .field (.sliceOf _), _, .null => some (.slice none)
  | .var n, _, .str s => storeString (decl n) s
  | .field .string, _, .str s => some (.str (coerceUTF8 s))
  | .field (.pointer n), _, .str s => (storeString (decl n) s).map fun v => .ptr (some v)
  | .field (.sliceOf _), _, .str _ => none
  | .var n, cur, .arr js =>
    match decl n with
    | .slice e => (decodeElems e (elemsOf cur) js).map fun vs => .slice (some vs)
    | _ => none
  | .field .string, _, .arr _ => none
  | .field (.pointer n), cur, .arr js =>
    match decl n with
    | .slice e =>
      (decodeElems e (elemsOf (pointee n cur)) js).map fun vs => .ptr (some (.slice (some vs)))
    | _ => none
  | .field (.sliceOf e), cur, .arr js =>
    (decodeElems e (elemsOf cur) js).map fun vs => .slice (some vs)
  | .var n, cur, .obj kvs =>
    match decl n with
    | .struct fs => (decodeFields fs (structFields cur) kvs).map fun vs => .struct n vs
    | _ => none
  | .field (.pointer n), cur, .obj kvs =>
    match decl n with
    | .struct fs =>
      (decodeFields fs (structFields (pointee n cur)) kvs).map fun vs =>
        .ptr (some (.struct n vs))
    | _ => none
  | .field .string, _, .obj _ => none
  | .field (.sliceOf _), _, .obj _ => none
  | _, _, .bool _ => none
  | _, _, .num _ => none
/-- Decoding the elements of an array into a slice of `*n`: element `i` is decoded into the
`i`-th element the slice holds, or into a nil pointer past its end.  The slice returned has
as many elements as the array.  A slice is taken to hold nothing beyond its length: the
elements that encoding/json finds again in the spare capacity of a slice cut short by an
earlier member for the same field are not part of the embedding, which is exact for every
document that gives no sequence field more than once. -/
def decodeElems (n : TypeName) (cur : List Value) : List JSON → Option (List Value)
  | [] => some []
  | j :: js =>
    match decode (.field (.pointer n)) (cur.headD (.ptr none)) j, decodeElems n cur.tail js with
    | some v, some vs => some (v :: vs)
    | _, _ => none
/-- Decoding the members of an object into the fields of a struct, member by member in the
order of the document; a member whose key names no field is skipped. -/
def decodeFields (fs : List Field) (cur : List Value) :
    List (String × JSON) → Option (List Value)
  | [] => some cur
  | (k, j) :: rest =>
    match findField fs k with
    | none => decodeFields fs cur rest
    | some i =>
      match decode (.field (fs.getD i ⟨"", .string, ""⟩).type) (cur.getD i (.str [])) j with
      | none => none
      | some v => decodeFields fs (cur.set i v) rest
end

/-- The result of `json.Marshal` on a value. -/
def Marshal (v : Value) : JSON := marshal v

mutual
/-- The nesting depth of a document: the largest number of arrays and objects that are open
at once while it is read. -/
def JSON.depth : JSON → Nat
  | .arr js => 1 + depthElems js
  | .obj kvs => 1 + depthMembers kvs
  | _ => 0
/-- The largest nesting depth among the elements of an array. -/
def depthElems : List JSON → Nat
  | [] => 0
  | j :: js => max j.depth (depthElems js)
/-- The largest nesting depth among the members of an object. -/
def depthMembers : List (String × JSON) → Nat
  | [] => 0
  | (_, j) :: kvs => max j.depth (depthMembers kvs)
end

/-- The nesting limit of the scanner of encoding/json: opening an array or object while
this many are open is the error "exceeded max depth". -/
def maxNestingDepth : Nat := 10000

/-- The result of `json.Unmarshal` into a fresh variable of the declared type `n`; `none`
when Unmarshal reports an error.  The document is checked as a whole before anything is
decoded, which is where a document nested deeper than `maxNestingDepth` is refused. -/
def Unmarshal (n : TypeName) (j : JSON) : Option Value :=
  if j.depth ≤ maxNestingDepth then decode (.var n) (zeroNamed n) j else none

/-- A composite literal `T{name: value, ...}`: the struct of type `n` whose listed fields
hold the given values and whose other fields are zero. -/
def lit (n : TypeName) (sets : List (String × Value)) : Value :=
  .struct n ((fieldsOf n).map fun f =>
    match sets.lookup f.name with
    | some v => v
    | none => zeroType f.type)

/-- A non-nil pointer `&v`. -/
def ref (v : Value) : Value := .ptr (some v)

/-- A non-nil slice holding the given elements. -/
def sliceLit (vs : List Value) : Value := .slice (some vs)

mutual
/-- The value that a serialize-then-deserialize round trip returns for a value of a
declared or pointer type: the same tree, except that a string comes back coerced to valid
UTF-8, a pointer to a nil slice comes back as a nil pointer and an empty slice held by a
struct field comes back as the nil slice. -/
def canon : Value → Value
  | .str s => .str (coerceUTF8 s)
  | .ptr none => .ptr none
  | .ptr (some (.slice none)) => .ptr none
  | .ptr (some v) => .ptr (some (canon v))
  | .slice none => .slice none
  | .slice (some vs) => .slice (some (canonElems vs))
  | .struct n vs => .struct n (canonFields vs)
/-- The round-trip image of the elements of a slice. -/
def canonElems : List Value → List Value
  | [] => []
  | v :: vs => canon v :: canonElems vs
/-- The round-trip image of the field values of a struct. -/
def canonFields : List Value → List Value
  | [] => []
  | .slice (some []) :: vs => .slice none :: canonFields vs
  | v :: vs => canon v :: canonFields vs
end

/-- The zero values of a list of fields. -/
def zeros (fs : List Field) : List Value := fs.map fun f => zeroType f.type

/-- Round trip of a value of the declared type `n`. -/
def RtNamed (v : Value) : Prop :=
  ∀ n, hasNamedType n v = true → decode (.var n) (zeroNamed n) (marshal v) = some (canon v)

/-- Round trip of a value of type `*n` decoded into a nil pointer. -/
def RtPtr (v : Value) : Prop :=
  ∀ n, hasPtrType n v = true →
    decode (.field (.pointer n)) (.ptr none) (marshal v) = some (canon v)

/-- Round trip of the elements of a slice decoded into a nil slice. -/
def RtElems (vs : List Value) : Prop :=
  ∀ n, allPtrTo n vs = true → decodeElems n [] (marshalElems vs) = some (canonElems vs)

/-- Round trip of the trailing fields of a struct decoded into their zero values. -/
def RtFields (vs : List Value) : Prop :=
  ∀ (pre fs : List Field) (curPre : List Value),
    ((pre ++ fs).map Field.key).Nodup → (∀ f ∈ fs, f.omitempty = true) →
    hasFieldTypes fs vs = true → curPre.length = pre.length →
    decodeFields (pre ++ fs) (curPre ++ zeros fs) (marshalFields fs vs) =
      some (curPre ++ canonFields vs)


/-- The round-trip image of one field value: an empty slice held by a field is left out
of the document and comes back as the nil slice. -/
def canonField : Value → Value
  | .slice (some []) => .slice none
  | v => canon v

mutual
/-- Whether the second tree equals the first in every populated field and in the order and
length of every sequence.  A struct field is populated when its value is not empty in the
sense of `isEmptyValue`; fields that are not populated are not compared. -/
def agrees : Value → Value → Bool
  | .str s, .str s' => s == s'
  | .ptr none, .ptr none => true
  | .ptr (some v), .ptr (some v') => agrees v v'
  | .slice none, .slice none => true
  | .slice none, .slice (some vs') => vs'.isEmpty
  | .slice (some vs), .slice none => vs.isEmpty
  | .slice (some vs), .slice (some vs') => agreesElems vs vs'
  | .struct n vs, .struct n' vs' => n == n' && agreesFields vs vs'
  | _, _ => false
/-- Agreement of two sequences, entry by entry in order. -/
def agreesElems : List Value → List Value → Bool
  | [], [] => true
  | v :: vs, v' :: vs' => agrees v v' && agreesElems vs vs'
  | _, _ => false
/-- Agreement of the fields of two structs on the populated fields of the first. -/
def agreesFields : List Value → List Value → Bool
  | [], [] => true
  | v :: vs, v' :: vs' => (isEmptyValue v || agrees v v') && agreesFields vs vs'
  | _, _ => false
end

mutual
/-- Whether a tree holds no pointer to a nil slice. -/
def noNilSliceRef : Value → Bool
  | .str _ => true
  | .ptr none => true
  | .ptr (some (.slice none)) => false
  | .ptr (some v) => noNilSliceRef v
  | .slice none => true
  | .slice (some vs) => noNilSliceRefs vs
  | .struct _ vs => noNilSliceRefs vs
/-- Whether no tree of a list holds a pointer to a nil slice. -/
def noNilSliceRefs : List Value → Bool
  | [] => true
  | v :: vs => noNilSliceRef v && noNilSliceRefs vs
end

mutual
/-- Whether every string of a tree is valid UTF-8. -/
def validText : Value → Bool
  | .str s => validUTF8 s
  | .ptr none => true
  | .ptr (some v) => validText v
  | .slice none => true
  | .slice (some vs) => validTexts vs
  | .struct _ vs => validTexts vs
/-- Whether every string of every tree of a list is valid UTF-8. -/
def validTexts : List Value → Bool
  | [] => true
  | v :: vs => validText v && validTexts vs
end

mutual
/-- Whether a tree is in the form the decoder builds: every string valid UTF-8, no pointer
to a nil slice, and no struct field holding an empty slice that is not nil. -/
def isCanon : Value → Bool
  | .str s => validUTF8 s
  | .ptr none => true
  | .ptr (some (.slice none)) => false
  | .ptr (some v) => isCanon v
  | .slice none => true
  | .slice (some vs) => isCanonElems vs
  | .struct _ vs => isCanonFields vs
/-- Whether every entry of a sequence is in the form the decoder builds. -/
def isCanonElems : List Value → Bool
  | [] => true
  | v :: vs => isCanon v && isCanonElems vs
/-- Whether every field value of a struct is in the form the decoder builds. -/
def isCanonFields : List Value → Bool
  | [] => true
  | .slice (some []) :: _ => false
  | v :: vs => isCanon v && isCanonFields vs
end

/-- One step down a tree: into field `i` of a struct, through a pointer, or to element `i`
of a slice. -/
inductive Step where
  | field (i : Nat)
  | deref
  | elem (i : Nat)

/-- The value one step below a value, when there is one. -/
def step : Value → Step → Option Value
  | .struct _ vs, .field i => vs[i]?
  | .ptr (some v), .deref => some v
  | .slice (some vs), .elem i => vs[i]?
  | _, _ => none

/-- The value reached from a tree along a path. -/
def follow : Value → List Step → Option Value
  | v, [] => some v
  | v, s :: p =>
    match step v s with
    | some w => follow w p
    | none => none

/-- Whether a field value is unset: the empty string, the nil pointer, the nil slice. -/
def isUnset : Value → Bool
  | .str s => s.isEmpty
  | .ptr none => true
  | .slice none => true
  | _ => false

/-- The entries of the sequence a field value holds: the elements of a slice, or of the
slice a pointer points at; no entries otherwise. -/
def entries : Value → List Value
  | .slice (some vs) => vs
  | .ptr (some (.slice (some vs))) => vs
  | _ => []

/-- Field `i` of a struct value. -/
def Value.field (v : Value) (i : Nat) : Option Value := (structFields v)[i]?

/-- The struct value with field `i` replaced. -/
def Value.setField (v : Value) (i : Nat) (w : Value) : Value :=
  match v with
  | .struct n vs => .struct n (vs.set i w)
  | v => v

/-- Whether every field of a struct value holds a string. -/
def textOnly : Value → Bool
  | .struct _ vs => vs.all fun v => match v with
    | .str _ => true
    | _ => false
  | _ => false

/-- Whether a sequence entry is nil or points at a record whose fields are all text. -/
def textEntry : Value → Bool
  | .ptr none => true
  | .ptr (some v) => textOnly v
  | _ => false

/-- The keys of a JSON object, in document order. -/
def JSON.keys : JSON → List String
  | .obj kvs => kvs.map Prod.fst
  | _ => []

/-- The member of a JSON object under a key. -/
def JSON.get (j : JSON) (k : String) : Option JSON :=
  match j with
  | .obj kvs => kvs.lookup k
  | _ => none

/-- The value a field holds when it is set but empty: the empty string, a pointer to the
zero value of the pointee type, the empty non-nil slice. -/
def setButEmpty : GoType → Value
  | .string => .str []
  | .pointer n => .ptr (some (zeroNamed n))
  | .sliceOf _ => .slice (some [])

/-- Whether one list of characters starts with another. -/
def startsWith : List Char → List Char → Bool
  | _, [] => true
  | [], _ :: _ => false
  | c :: cs, d :: ds => c == d && startsWith cs ds

/-- Whether a Go field name begins with `Attr`. -/
def Field.isAttr (f : Field) : Bool := startsWith f.name.data "Attr".data

/-- Whether a json key begins with `attr_`. -/
def Field.keyIsAttr (f : Field) : Bool := startsWith f.key.data "attr_".data

/-- Lower-cases the rest of a name, putting an underscore before each capital letter. -/
def snakeRest : List Char → List Char
  | [] => []
  | c :: cs => if c.isUpper then '_' :: c.toLower :: snakeRest cs else c :: snakeRest cs

/-- The lowercase-with-underscores form of a Go name: an underscore before every capital
letter but the first, then lower-cased. -/
def snakeCase (s : String) : String :=
  match s.data with
  | [] => ""
  | c :: cs => String.mk (c.toLower :: snakeRest cs)

/-- Whether a key consists of lowercase letters and underscores only. -/
def lowerSnake (s : String) : Bool := s.data.all fun c => c.isLower || c == '_'

/-- The names of the fields of a declared type. -/
def fieldNames (n : TypeName) : List String := (fieldsOf n).map Field.name

/-- The example address of the specification: two address lines, a country name code
under the scheme iso.3166-2, and one locality name. -/
def exampleAddress : Value :=
  lit .AddressDetails [
    ("AddressLines", ref (sliceLit [
      ref (lit .AddressLine [("Text", .str (utf8 "123 Main St"))]),
      ref (lit .AddressLine [("Text", .str (utf8 "Suite 400"))])])),
    ("Country", ref (lit .Country [
      ("CountryNameCode", ref (lit .CountryNameCode [
        ("AttrScheme", .str (utf8 "iso.3166-2")), ("Text", .str (utf8 "US"))]))])),
    ("Locality", ref (lit .Locality [
      ("LocalityName", sliceLit [ref (lit .LocalityName [("Text", .str (utf8 "Springfield"))])])]))]

/-- The JSON document written for `exampleAddress`. -/
def exampleDocument : JSON :=
  .obj [
    ("address_lines", .arr [.obj [("text", .str (utf8 "123 Main St"))],
      .obj [("text", .str (utf8 "Suite 400"))]]),
    ("country", .obj [("country_name_code",
      .obj [("attr_scheme", .str (utf8 "iso.3166-2")), ("text", .str (utf8 "US"))])]),
    ("locality", .obj [("locality_name", .arr [.obj [("text", .str (utf8 "Springfield"))]])])]

/-- An XAL whose only address holds a reference to a nil AddressLines slice, as after
`var ls AddressLines; AddressDetails{AddressLines: &ls}`. -/
def nilLinesTree : Value :=
  lit .XAL [("AddressDetails", sliceLit [
    ref (lit .AddressDetails [("AddressLines", ref (.slice none))])])]

/-- An XAL whose address names a locality with a dependent locality nested in a dependent
locality. -/
def nestedTree : Value :=
  lit .XAL [("AttrVersion", .str (utf8 "2.0")), ("AddressDetails", sliceLit [
    ref (lit .AddressDetails [("Locality", ref (lit .Locality [
      ("DependentLocality", ref (lit .DependentLocality [
        ("AttrType", .str (utf8 "district")),
        ("DependentLocality", ref (lit .DependentLocality [
          ("AttrType", .str (utf8 "ward")),
          ("DependentLocalityName", sliceLit [
            ref (lit .DependentLocalityName [("Text", .str (utf8 "Hill Top"))])])])),
        ("DependentLocalityName", sliceLit [
          ref (lit .DependentLocalityName [("Text", .str (utf8 "Parish"))])])]))]))])])]

/-- The entries of the sequence held by field `i` of a struct value. -/
def fieldEntries (v : Value) (i : Nat) : List Value :=
  match v.field i with
  | some f => entries f
  | none => []

/-- An XAL with two addresses: the first holds a usage attribute, the second holds a
reference to a nil AddressLines slice. -/
def twoAddresses : Value :=
  lit .XAL [("AddressDetails", sliceLit [
    ref (lit .AddressDetails [("AttrUsage", .str (utf8 "Postal"))]),
    ref (lit .AddressDetails [("AddressLines", ref (.slice none))])])]

/-- An AddressDetails with three address lines. -/
def threeLines : Value :=
  lit .AddressDetails [("AddressLines", ref (sliceLit [
    ref (lit .AddressLine [("Text", .str (utf8 "Flat 2"))]),
    ref (lit .AddressLine [("Text", .str (utf8 "10 Downing Street"))]),
    ref (lit .AddressLine [("Text", .str (utf8 "London"))])]))]

/-- An XAL with AttrVersion unset and an empty, non-nil AddressDetails sequence. -/
def emptyXAL : Value := lit .XAL [("AddressDetails", sliceLit [])]

/-- Whether the field at index `i` of the record type `n` has unset and set-but-empty as
two states that are written differently: unset the key is left out, set but empty the key
is written. -/
def emptyIsWritten (n : TypeName) (i : Nat) (f : Field) : Bool :=
  decide (f.key ∉ (Marshal (zeroNamed n)).keys) &&
  decide (f.key ∈ (Marshal ((zeroNamed n).setField i (setButEmpty f.type))).keys)

/-- Whether the field at index `i` of the record type `n` is left out of the document both
unset and set to the empty value of its type. -/
def emptyIsOmitted (n : TypeName) (i : Nat) (f : Field) : Bool :=
  decide ((Marshal (zeroNamed n)).keys = []) &&
  decide ((Marshal ((zeroNamed n).setField i (setButEmpty f.type))).keys = [])

/-- What the schema does with a field set to the empty value of its type: a pointer field
is written, a string field and a slice field are left out like an unset field. -/
def emptyValueRule (n : TypeName) (i : Nat) (f : Field) : Bool :=
  match f.type with
  | .pointer _ => emptyIsWritten n i f
  | .string => emptyIsOmitted n i f
  | .sliceOf _ => emptyIsOmitted n i f

/-- Whether a field is a scalar: a string rather than a child record or a sequence. -/
def Field.isScalar (f : Field) : Bool := f.type == .string

/-- The naming rule for attributes: the name begins with `Attr` exactly when the field is a
scalar other than the `Text` payload. -/
def attrRule (f : Field) : Bool := f.isAttr == (f.isScalar && f.name != "Text")

/-- The naming rule for keys: the key begins with `attr_` exactly when the name begins with
`Attr`. -/
def attrKeyRule (f : Field) : Bool := f.keyIsAttr == f.isAttr

/-- The attribute fields that the doc comment of a type describes by name (the lines
`AttrX: ...` of the comment above the declaration); empty for a type whose comment names
none. -/
def documentedAttrs : TypeName → List String
  | .Locality => ["AttrUsageType"]
  | .DependentLocality => ["AttrUsageType", "AttrConnector", "AttrIndicator"]
  | .Premise => ["AttrType", "AttrPremiseDependency", "AttrPremiseDependencyType",
      "AttrPremiseThoroughfareConnector"]
  | .PremiseName => ["AttrTypeOccurrence"]
  | _ => []

/-- The value by which a field of type `t` holds the text `s`: a string field holds it
directly, a pointer to a declared string type (ThoroughfareLeadingType, ThoroughfareName)
points at it; a field of another type holds no text. -/
def textValue (t : GoType) (s : GoString) : Option Value :=
  match t with
  | .string => some (.str s)
  | .pointer m =>
    match decl m with
    | .string => some (.ptr (some (.str s)))
    | _ => none
  | .sliceOf _ => none

mutual
/-- The number of records of type `n` on the longest chain that starts at a value and goes
from a record of type `n` to a record of type `n` held directly by one of its fields,
through a pointer or as an entry of a sequence.  A value that is not a record of type `n`
starts no chain. -/
def selfChain (n : TypeName) : Value → Nat
  | .struct m vs => if m = n then 1 + selfChainList n vs else 0
  | _ => 0
/-- The longest chain started by the record a field value or a sequence entry holds. -/
def selfChainChild (n : TypeName) : Value → Nat
  | .ptr (some v) => selfChain n v
  | .slice (some vs) => selfChainList n vs
  | _ => 0
/-- The longest chain started below one of the values of a list. -/
def selfChainList (n : TypeName) : List Value → Nat
  | [] => 0
  | v :: vs => max (selfChainChild n v) (selfChainList n vs)
end

/-- The record of type `t` that nests `k` further records of type `t`, each held by field
`i` of the one above it in the form `hold`, every other field unset. -/
def nestVia (t : TypeName) (i : Nat) (hold : Value → Value) : Nat → Value
  | 0 => zeroNamed t
  | k + 1 => (zeroNamed t).setField i (hold (nestVia t i hold k))

/-- A DependentLocality with `k` nested DependentLocality children, one in the other. -/
def nestedDependentLocality (k : Nat) : Value := nestVia .DependentLocality 3 ref k

/-- A Premise with `k` nested Premise levels. -/
def nestedPremise (k : Nat) : Value := nestVia .Premise 6 ref k

/-- A SubPremise with `k` nested SubPremise levels, each the only entry of the SubPremise
sequence of the one above. -/
def nestedSubPremise (k : Nat) : Value :=
  nestVia .SubPremise 1 (fun c => sliceLit [ref c]) k

/-- A Locality whose DependentLocality starts a chain of `k` DependentLocality records; for
`k = 0` the Locality has no DependentLocality. -/
def localityLevels : Nat → Value
  | 0 => zeroNamed .Locality
  | k + 1 => (zeroNamed .Locality).setField 3 (ref (nestedDependentLocality k))

/-- The number of levels of DependentLocality nesting of a Locality: the longest chain of
DependentLocality records that starts at its DependentLocality field. -/
def dependentLevels (v : Value) : Nat :=
  match v.field 3 with
  | some f => selfChainChild .DependentLocality f
  | none => 0

/-- Whether a field refers to the type `n` itself, as `*n` or `[]*n`. -/
def Field.refersTo (f : Field) (n : TypeName) : Bool :=
  f.type == .pointer n || f.type == .sliceOf n

/-- Whether a declared type has a field of its own type. -/
def selfRecursive (n : TypeName) : Bool := (fieldsOf n).any fun f => f.refersTo n

/-- The names of the fields of a declared type that are of the type itself. -/
def selfFields (n : TypeName) : List Field := (fieldsOf n).filter fun f => f.refersTo n

/-- The types a declared type refers to: the pointees and element types of the fields of a
struct, the element type of a slice type. -/
def childTypes (n : TypeName) : List TypeName :=
  match decl n with
  | .struct fs => fs.filterMap fun f =>
    match f.type with
    | .pointer m => some m
    | .sliceOf m => some m
    | .string => none
  | .slice e => [e]
  | .string => []

/-- Reachability between declared types by following child fields and sequence elements. -/
inductive Reach : TypeName → TypeName → Prop where
  | here (a : TypeName) : Reach a a
  | next {a b c : TypeName} (before : Reach a b) (child : c ∈ childTypes b) : Reach a c

/-- Adds to a list the types of another list that it does not hold yet. -/
def addNew (acc : List TypeName) : List TypeName → List TypeName
  | [] => acc
  | t :: ts => if t ∈ acc then addNew acc ts else addNew (acc ++ [t]) ts

/-- The types found from XAL in at most `k` steps along child fields. -/
def foundWithin : Nat → List TypeName
  | 0 => [.XAL]
  | k + 1 => addNew (foundWithin k) ((foundWithin k).flatMap childTypes)

/-- Whether a field is a child: a pointer or a sequence rather than a string. -/
def Field.isChild (f : Field) : Bool := !f.isScalar

/-- Whether a declared type has a field named `Text`. -/
def hasTextField (n : TypeName) : Bool := (fieldsOf n).any fun f => f.name == "Text"

/-- Whether a declared type has a child field. -/
def hasChildField (n : TypeName) : Bool := (fieldsOf n).any Field.isChild

/-- Whether a declared type is a record, that is a struct. -/
def isRecord (n : TypeName) : Bool :=
  match decl n with
  | .struct _ => true
  | _ => false

/-- An XAL of version 2.0 whose one address names a locality holding a premise that nests
`k` further premises, each the Premise child of the one before.  The document written for
it nests `k + 5` containers: the XAL object, the array of addresses, the address, the
locality and the `k + 1` premises. -/
def deepTree (k : Nat) : Value :=
  ((zeroNamed .XAL).setField 0 (.str (utf8 "2.0"))).setField 1 (sliceLit [ref
    ((zeroNamed .AddressDetails).setField 8 (ref
      ((zeroNamed .Locality).setField 9 (ref (nestedPremise k)))))])

/-- The six bytes of the Go string "caf\xe9 \xff": the word in Latin-1 followed by a space
and the byte 0xFF.  Neither 0xE9 followed by a space nor 0xFF is well-formed UTF-8. -/
def latin1Text : GoString := [0x63, 0x61, 0x66, 0xE9, 0x20, 0xFF]

/-- The bytes of `latin1Text` with each of the two offending bytes replaced by the three
bytes EF BF BD that encode U+FFFD. -/
def replacedText : GoString := [0x63, 0x61, 0x66, 0xEF, 0xBF, 0xBD, 0x20, 0xEF, 0xBF, 0xBD]

/-- An XAL whose one address has the usage attribute set to the single byte 0xFF, as in
`XAL{AddressDetails: []*AddressDetails{{AttrUsage: "\xff"}}}`. -/
def badUsageTree : Value :=
  lit .XAL [("AddressDetails", sliceLit [ref (lit .AddressDetails [("AttrUsage", .str [0xFF])])])]

/-- An AddressDetails with two address lines, the second holding `latin1Text`. -/
def latin1Lines : Value :=
  lit .AddressDetails [("AddressLines", ref (sliceLit [
    ref (lit .AddressLine [("Text", .str (utf8 "Flat 2"))]),
    ref (lit .AddressLine [("Text", .str latin1Text)])]))]

/-- A Thoroughfare named by a plain string, with a leading type given as a plain string and
a trailing type given as a record with a Text field. -/
def rueMoliere : Value :=
  lit .Thoroughfare [
    ("ThoroughfareLeadingType", ref (.str (utf8 "Rue"))),
    ("ThoroughfareName", ref (.str (utf8 "Moliere"))),
    ("ThoroughfareTrailingType", ref (lit .ThoroughfareTrailingType [
      ("Text", .str (utf8 "Lane"))]))]
theorem coerceFrom_of_valid : ∀ (s : GoString) (k : Nat),
    validFrom k s = true → coerceFrom k s = s := by
  intro s
  induction s with
  | nil => intro k _; cases k <;> rfl
  | cons b rest ih =>
    intro k h
    cases k with
    | succ k =>
      simp only [validFrom] at h
      simp only [coerceFrom, ih k h]
    | zero =>
      simp only [validFrom] at h
      simp only [coerceFrom]
      cases hr : runeLen (b :: rest) with
      | zero => simp [hr] at h
      | succ n =>
        simp only [hr] at h
        simp only [ih n h]

theorem continues_coerceFrom : ∀ (k : Nat) (lo hi : Nat) (s : GoString),
    continues lo hi k s = true → continues lo hi k (coerceFrom k s) = true := by
  intro k
  induction k with
  | zero => intro lo hi s _; cases s <;> rfl
  | succ k ih =>
    intro lo hi s h
    cases s with
    | nil => simp [continues] at h
    | cons b rest =>
      simp only [continues, Bool.and_eq_true] at h
      simp only [coerceFrom, continues, Bool.and_eq_true]
      exact ⟨h.1, ih _ _ rest h.2⟩

theorem runeLen_coerceFrom (b : Byte) (rest : GoString) (n : Nat)
    (h : runeLen (b :: rest) = n + 1) : runeLen (b :: coerceFrom n rest) = n + 1 := by
  simp only [runeLen] at h ⊢
  cases hf : first b with
  | none => simp [hf] at h
  | some p =>
    obtain ⟨size, lo, hi⟩ := p
    simp only [hf] at h ⊢
    by_cases hc : continues lo hi (size - 1) rest = true
    · simp only [hc, if_true] at h
      subst h
      have := continues_coerceFrom n lo hi rest (by simpa using hc)
      simp [this]
    · simp [hc] at h

theorem validFrom_coerceFrom : ∀ (s : GoString) (k : Nat),
    validFrom k (coerceFrom k s) = true := by
  intro s
  induction s with
  | nil => intro k; cases k <;> rfl
  | cons b rest ih =>
    intro k
    cases k with
    | succ k => simp only [coerceFrom, validFrom, ih k]
    | zero =>
      simp only [coerceFrom]
      cases hr : runeLen (b :: rest) with
      | zero =>
        have h3 : runeLen (0xEF :: 0xBF :: 0xBD :: coerceFrom 0 rest) = 3 := by rfl
        simp only [validFrom, h3]
        exact ih 0
      | succ n =>
        simp only [validFrom, runeLen_coerceFrom b rest n hr]
        exact ih n

/-- Coercion returns valid UTF-8. -/
theorem validUTF8_coerceUTF8 (s : GoString) : validUTF8 (coerceUTF8 s) = true :=
  validFrom_coerceFrom s 0

/-- Coercion leaves valid UTF-8 unchanged. -/
theorem coerceUTF8_of_valid (s : GoString) (h : validUTF8 s = true) : coerceUTF8 s = s :=
  coerceFrom_of_valid s 0 h

/-- Coercing twice is coercing once. -/
theorem coerceUTF8_idem (s : GoString) : coerceUTF8 (coerceUTF8 s) = coerceUTF8 s :=
  coerceUTF8_of_valid _ (validUTF8_coerceUTF8 s)

theorem coerceUTF8_isEmpty (s : GoString) : (coerceUTF8 s).isEmpty = s.isEmpty := by
  cases s with
  | nil => rfl
  | cons b rest =>
    simp only [coerceUTF8, coerceFrom]
    cases runeLen (b :: rest) <;> rfl

theorem validUTF8_nil : validUTF8 [] = true := rfl

theorem decode_pointer (n : TypeName) (cur : Value) (j : JSON) (h : j ≠ .null) :
    decode (.field (.pointer n)) cur j =
      (decode (.var n) (pointee n cur) j).map fun v => .ptr (some v) := by
  cases j with
  | null => exact absurd rfl h
  | bool b => simp [decode]
  | num l => simp [decode]
  | str s => simp [decode]
  | arr js =>
    simp only [decode]
    cases decl n <;> first | rfl | (simp only [Option.map_map]; rfl)
  | obj kvs =>
    simp only [decode]
    cases decl n <;> first | rfl | (simp only [Option.map_map]; rfl)

theorem indexWhere_append (p : Field → Bool) (pre : List Field) (f : Field)
    (post : List Field) (hpre : ∀ g ∈ pre, p g = false) (hf : p f = true) :
    indexWhere p (pre ++ f :: post) = some pre.length := by
  induction pre with
  | nil => simp [indexWhere, hf]
  | cons g pre ih =>
    have hg : p g = false := hpre g (List.mem_cons_self _ _)
    have ih2 := ih (fun x hx => hpre x (List.mem_cons_of_mem _ hx))
    simp [indexWhere, hg, ih2]

theorem findField_append (pre : List Field) (f : Field) (post : List Field)
    (hnd : ((pre ++ f :: post).map Field.key).Nodup) :
    findField (pre ++ f :: post) f.key = some pre.length := by
  have hpre : ∀ g ∈ pre, (g.key == f.key) = false := by
    intro g hg
    simp only [List.map_append, List.map_cons] at hnd
    have h1 := (List.nodup_append.mp hnd).2.2
    have h2 : g.key ≠ f.key := by
      intro heq
      exact h1 (List.mem_map_of_mem _ hg) (by rw [heq]; exact List.mem_cons_self _ _)
    simpa using h2
  unfold findField
  rw [indexWhere_append (fun g => g.key == f.key) pre f post hpre (by simp)]

theorem getD_append_length {α : Type} (pre : List α) (x : α) (post : List α) (d : α)
    (k : Nat) (hk : k = pre.length) : (pre ++ x :: post).getD k d = x := by
  subst hk
  induction pre with
  | nil => rfl
  | cons a pre ih => simpa [List.getD] using ih

theorem set_append_length {α : Type} (pre : List α) (x y : α) (post : List α)
    (k : Nat) (hk : k = pre.length) : (pre ++ x :: post).set k y = pre ++ y :: post := by
  subst hk
  induction pre with
  | nil => rfl
  | cons a pre ih => simp [ih]

/-- Every struct field of the schema carries the `omitempty` option. -/
theorem omitempty_all (n : TypeName) : ∀ f ∈ fieldsOf n, f.omitempty = true := by
  cases n <;> decide

/-- Within one struct, no two fields share a json key. -/
theorem keys_nodup (n : TypeName) : ((fieldsOf n).map Field.key).Nodup := by
  cases n <;> decide

theorem decodeFields_step (pre : List Field) (f : Field) (post : List Field)
    (curPre : List Value) (z w : Value) (zs : List Value) (j : JSON)
    (rest : List (String × JSON))
    (hnd : ((pre ++ f :: post).map Field.key).Nodup) (hlen : curPre.length = pre.length)
    (hdec : decode (.field f.type) z j = some w) :
    decodeFields (pre ++ f :: post) (curPre ++ z :: zs) ((f.key, j) :: rest) =
      decodeFields (pre ++ f :: post) (curPre ++ w :: zs) rest := by
  rw [decodeFields, findField_append pre f post hnd]
  simp only
  rw [getD_append_length pre f post _ pre.length rfl,
    getD_append_length curPre z zs _ pre.length hlen.symm, hdec]
  simp only
  rw [set_append_length curPre z w zs pre.length hlen.symm]

theorem zeros_cons (f : Field) (fs : List Field) :
    zeros (f :: fs) = zeroType f.type :: zeros fs := rfl

theorem hasType_str {t : GoType} {s : GoString} (h : hasType t (.str s) = true) :
    t = .string := by
  simpa [hasType] using h

theorem hasType_ptr_none {t : GoType} (h : hasType t (.ptr none) = true) :
    ∃ m, t = .pointer m := by
  cases t <;> simp [hasType] at h ⊢

theorem hasType_ptr_some {t : GoType} {x : Value} (h : hasType t (.ptr (some x)) = true) :
    ∃ m, t = .pointer m ∧ hasNamedType m x = true := by
  cases t <;> simp [hasType] at h ⊢
  exact h

theorem hasType_slice_none {t : GoType} (h : hasType t (.slice none) = true) :
    ∃ m, t = .sliceOf m := by
  cases t <;> simp [hasType] at h ⊢

theorem hasType_slice_some {t : GoType} {vs : List Value}
    (h : hasType t (.slice (some vs)) = true) :
    ∃ m, t = .sliceOf m ∧ allPtrTo m vs = true := by
  cases t <;> simp [hasType] at h ⊢
  exact h


/-- Induction over values together with the lists of values they hold. -/
theorem Value.induct {P : Value → Prop} {Q : List Value → Prop}
    (hstr : ∀ s, P (.str s)) (hnil : P (.ptr none)) (href : ∀ v, P v → P (.ptr (some v)))
    (hsnil : P (.slice none)) (hslice : ∀ vs, Q vs → P (.slice (some vs)))
    (hstruct : ∀ n vs, Q vs → P (.struct n vs))
    (hnilL : Q []) (hcons : ∀ v vs, P v → Q vs → Q (v :: vs)) :
    (∀ v, P v) ∧ (∀ vs, Q vs) := by
  have hP : ∀ v, P v := by
    intro v
    refine @Value.rec P (fun o => ∀ v, o = some v → P v)
      (fun o => ∀ vs, o = some vs → Q vs) Q
      hstr ?_ ?_ ?_ ?_ ?_ ?_ ?_ hnilL ?_ v
    · intro p hp
      cases p with
      | none => exact hnil
      | some x => exact href x (hp x rfl)
    · intro s hs
      cases s with
      | none => exact hsnil
      | some vs => exact hslice vs (hs vs rfl)
    · intro n vs hq
      exact hstruct n vs hq
    · intro v h
      cases h
    · intro x hx v h
      cases h
      exact hx
    · intro vs h
      cases h
    · intro xs hxs vs h
      cases h
      exact hxs
    · intro x xs hx hxs
      exact hcons x xs hx hxs
  refine ⟨hP, ?_⟩
  intro vs
  induction vs with
  | nil => exact hnilL
  | cons v vs ih => exact hcons v vs (hP v) ih

theorem rtNamed_str (s : GoString) : RtNamed (.str s) := by
  intro n h
  cases hd : decl n <;> simp [hasNamedType, hd] at h
  simp [marshal, decode, storeString, hd, canon, coerceUTF8_idem]

theorem rtNamed_slice_none : RtNamed (.slice none) := by
  intro n h
  cases hd : decl n <;> simp [hasNamedType, hd] at h
  simp [marshal, decode, hd, canon]

theorem rtNamed_slice (vs : List Value) (ih : RtElems vs) : RtNamed (.slice (some vs)) := by
  intro n h
  cases hd : decl n <;> simp [hasNamedType, hd] at h
  have ih := ih _ h
  simp [marshal, decode, hd, canon, zeroNamed, elemsOf, ih]

theorem rtNamed_struct (m : TypeName) (vs : List Value) (ih : RtFields vs) :
    RtNamed (.struct m vs) := by
  intro n h
  cases hd : decl n <;> simp [hasNamedType, hd] at h
  rename_i fs
  obtain ⟨hm, hf⟩ := h
  subst hm
  have hfs : fieldsOf m = fs := by simp [fieldsOf, hd]
  have hnd : (([] ++ fs).map Field.key).Nodup := by
    simpa [hfs] using keys_nodup m
  have hom : ∀ f ∈ fs, f.omitempty = true := by
    simpa [hfs] using omitempty_all m
  have ih := ih [] fs [] hnd hom hf rfl
  simp only [List.nil_append] at ih
  simp only [marshal, hfs, decode, hd, zeroNamed, structFields, canon]
  rw [show (fs.map fun f => zeroType f.type) = zeros fs from rfl, ih]
  rfl

theorem rtPtr_some (x : Value) (ih : RtNamed x) : RtPtr (.ptr (some x)) := by
  intro n h
  have hx : hasNamedType n x = true := by simpa [hasPtrType] using h
  have ih := ih n hx
  cases x with
  | str s =>
    simp only [marshal] at ih ⊢
    rw [decode_pointer _ _ _ (by simp)]
    simp [pointee, ih, canon]
  | ptr p => simp [hasNamedType] at hx
  | slice s =>
    cases s with
    | none => simp [marshal, decode, canon]
    | some vs =>
      simp only [marshal] at ih ⊢
      rw [decode_pointer _ _ _ (by simp)]
      simp [pointee, ih, canon]
  | struct m vs =>
    simp only [marshal] at ih ⊢
    rw [decode_pointer _ _ _ (by simp)]
    simp [pointee, ih, canon]

theorem rtPtr_of (v : Value) (ih : RtNamed (match v with | .ptr (some x) => x | _ => v)) :
    RtPtr v := by
  cases v with
  | str s => intro n h; simp [hasPtrType] at h
  | ptr p =>
    cases p with
    | none => intro n _; simp [marshal, decode, canon]
    | some x => exact rtPtr_some x ih
  | slice s => intro n h; simp [hasPtrType] at h
  | struct m vs => intro n h; simp [hasPtrType] at h

theorem rtElems_nil : RtElems [] := by
  intro n _
  simp [marshalElems, decodeElems, canonElems]

theorem rtElems_cons (v : Value) (vs : List Value) (h1 : RtPtr v) (h2 : RtElems vs) :
    RtElems (v :: vs) := by
  intro n h
  simp only [allPtrTo, Bool.and_eq_true] at h
  have ih1 := h1 n h.1
  have ih2 := h2 n h.2
  simp [marshalElems, decodeElems, canonElems, ih1, ih2]

theorem rtFields_nil : RtFields [] := by
  intro pre fs curPre _ _ h _
  cases fs with
  | nil => simp [marshalFields, decodeFields, canonFields, zeros]
  | cons f fs => simp [hasFieldTypes] at h

theorem rtFields_cons (v : Value) (vs : List Value) (hptr : RtPtr v)
    (hel : ∀ ys, v = .slice (some ys) → RtElems ys) (hrest : RtFields vs) :
    RtFields (v :: vs) := by
  intro pre fs curPre hnd hom h hlen
  cases fs with
  | nil => simp [hasFieldTypes] at h
  | cons f fs =>
    simp only [hasFieldTypes, Bool.and_eq_true] at h
    obtain ⟨hv, hvs⟩ := h
    have hof : f.omitempty = true := hom f (List.mem_cons_self _ _)
    have hnd2 : (((pre ++ [f]) ++ fs).map Field.key).Nodup := by
      simpa using hnd
    have hom2 : ∀ g ∈ fs, g.omitempty = true := fun g hg => hom g (List.mem_cons_of_mem _ hg)
    have ih := fun w => hrest (pre ++ [f]) fs (curPre ++ [w]) hnd2 hom2 hvs
      (by simp [hlen])
    simp only [List.append_assoc, List.singleton_append] at ih
    rw [zeros_cons]
    match v, hv, hptr, hel with
    | .str s, hv, _, _ =>
      have ht : f.type = .string := hasType_str hv
      by_cases hs : s = []
      · subst hs
        have hm : marshalFields (f :: fs) (.str [] :: vs) = marshalFields fs vs := by
          simp [marshalFields, hof, isEmptyValue]
        have hc : canonFields (.str [] :: vs) = zeroType f.type :: canonFields vs := by
          simp [canonFields, canon, ht, zeroType, coerceUTF8, coerceFrom]
        rw [hm, hc]
        exact ih _
      · have hm : marshalFields (f :: fs) (.str s :: vs) =
            (f.key, .str (coerceUTF8 s)) :: marshalFields fs vs := by
          simp [marshalFields, hof, isEmptyValue, hs, marshal]
        have hc : canonFields (.str s :: vs) = .str (coerceUTF8 s) :: canonFields vs := by
          simp [canonFields, canon]
        have hdec : decode (.field f.type) (zeroType f.type) (.str (coerceUTF8 s)) =
            some (.str (coerceUTF8 s)) := by
          rw [ht]
          simp [decode, coerceUTF8_idem]
        rw [hm, hc, decodeFields_step pre f fs curPre _ _ _ _ _ hnd hlen hdec]
        exact ih _
    | .ptr none, hv, _, _ =>
      obtain ⟨m, ht⟩ := hasType_ptr_none hv
      have hm : marshalFields (f :: fs) (.ptr none :: vs) = marshalFields fs vs := by
        simp [marshalFields, hof, isEmptyValue]
      have hc : canonFields (.ptr none :: vs) = zeroType f.type :: canonFields vs := by
        simp [canonFields, canon, ht, zeroType]
      rw [hm, hc]
      exact ih _
    | .ptr (some x), hv, hptr, _ =>
      obtain ⟨m, ht, hx⟩ := hasType_ptr_some hv
      have hp := hptr m (by simpa [hasPtrType] using hx)
      have hm : marshalFields (f :: fs) (.ptr (some x) :: vs) =
          (f.key, marshal (.ptr (some x))) :: marshalFields fs vs := by
        simp [marshalFields, hof, isEmptyValue]
      have hc : canonFields (.ptr (some x) :: vs) =
          canon (.ptr (some x)) :: canonFields vs := by
        simp [canonFields]
      have hdec : decode (.field f.type) (zeroType f.type) (marshal (.ptr (some x))) =
          some (canon (.ptr (some x))) := by
        rw [ht]
        exact hp
      rw [hm, hc, decodeFields_step pre f fs curPre _ _ _ _ _ hnd hlen hdec]
      exact ih _
    | .slice none, hv, _, _ =>
      obtain ⟨m, ht⟩ := hasType_slice_none hv
      have hm : marshalFields (f :: fs) (.slice none :: vs) = marshalFields fs vs := by
        simp [marshalFields, hof, isEmptyValue]
      have hc : canonFields (.slice none :: vs) = zeroType f.type :: canonFields vs := by
        simp [canonFields, canon, ht, zeroType]
      rw [hm, hc]
      exact ih _
    | .slice (some []), hv, _, _ =>
      obtain ⟨m, ht, _⟩ := hasType_slice_some hv
      have hm : marshalFields (f :: fs) (.slice (some []) :: vs) = marshalFields fs vs := by
        simp [marshalFields, hof, isEmptyValue]
      have hc : canonFields (.slice (some []) :: vs) = zeroType f.type :: canonFields vs := by
        simp [canonFields, ht, zeroType]
      rw [hm, hc]
      exact ih _
    | .slice (some (y :: ys)), hv, _, hel =>
      obtain ⟨m, ht, hys⟩ := hasType_slice_some hv
      have he := hel (y :: ys) rfl m hys
      have hm : marshalFields (f :: fs) (.slice (some (y :: ys)) :: vs) =
          (f.key, .arr (marshalElems (y :: ys))) :: marshalFields fs vs := by
        simp [marshalFields, hof, isEmptyValue, marshal]
      have hc : canonFields (.slice (some (y :: ys)) :: vs) =
          .slice (some (canonElems (y :: ys))) :: canonFields vs := by
        simp [canonFields, canon]
      have hdec : decode (.field f.type) (zeroType f.type) (.arr (marshalElems (y :: ys))) =
          some (.slice (some (canonElems (y :: ys)))) := by
        rw [ht]
        simp only [decode, zeroType, elemsOf]
        rw [he]
        rfl
      rw [hm, hc, decodeFields_step pre f fs curPre _ _ _ _ _ hnd hlen hdec]
      exact ih _
    | .struct _ _, hv, _, _ =>
      simp [hasType] at hv

/-- Serializing and deserializing returns the round-trip image `canon`, for values of
declared types, for pointers, for slice elements and for struct fields. -/
theorem roundTrip_all :
    (∀ v, RtNamed v ∧ RtPtr v ∧ ∀ ys, v = .slice (some ys) → RtElems ys) ∧
    (∀ vs, RtElems vs ∧ RtFields vs) := by
  apply Value.induct
  · intro s
    exact ⟨rtNamed_str s, rtPtr_of _ (rtNamed_str s), fun ys h => by cases h⟩
  · refine ⟨?_, rtPtr_of _ ?_, fun ys h => by cases h⟩
    · intro n h
      simp [hasNamedType] at h
    · intro n h
      simp [hasNamedType] at h
  · intro v hv
    refine ⟨?_, rtPtr_of _ hv.1, fun ys h => by cases h⟩
    intro n h
    simp [hasNamedType] at h
  · exact ⟨rtNamed_slice_none, rtPtr_of _ rtNamed_slice_none, fun ys h => by cases h⟩
  · intro vs hq
    refine ⟨rtNamed_slice vs hq.1, rtPtr_of _ (rtNamed_slice vs hq.1), fun ys h => ?_⟩
    cases h
    exact hq.1
  · intro n vs hq
    exact ⟨rtNamed_struct n vs hq.2, rtPtr_of _ (rtNamed_struct n vs hq.2),
      fun ys h => by cases h⟩
  · exact ⟨rtElems_nil, rtFields_nil⟩
  · intro v vs hv hq
    exact ⟨rtElems_cons v vs hv.2.1 hq.1, rtFields_cons v vs hv.2.1 hv.2.2 hq.2⟩

/-- Unmarshal after Marshal returns the round-trip image of a well-typed value whose
document is nested no deeper than the scanner allows. -/
theorem unmarshal_marshal (n : TypeName) (v : Value) (h : hasNamedType n v = true)
    (hd : (Marshal v).depth ≤ maxNestingDepth) :
    Unmarshal n (Marshal v) = some (canon v) := by
  rw [Unmarshal, if_pos hd]
  exact (roundTrip_all.1 v).1 n h

/-- Unmarshal reports an error for a document nested deeper than the scanner allows. -/
theorem unmarshal_deep (n : TypeName) (j : JSON) (hd : ¬ j.depth ≤ maxNestingDepth) :
    Unmarshal n j = none := by
  rw [Unmarshal, if_neg hd]

/-- Whenever Unmarshal after Marshal returns a value, the document is within the nesting
limit and the value is the round-trip image. -/
theorem unmarshal_marshal_some (n : TypeName) (v w : Value) (h : hasNamedType n v = true)
    (hw : Unmarshal n (Marshal v) = some w) :
    (Marshal v).depth ≤ maxNestingDepth ∧ w = canon v := by
  by_cases hd : (Marshal v).depth ≤ maxNestingDepth
  · rw [unmarshal_marshal n v h hd] at hw
    cases hw
    exact ⟨hd, rfl⟩
  · rw [unmarshal_deep n _ hd] at hw
    cases hw

theorem canonElems_eq_map (vs : List Value) : canonElems vs = vs.map canon := by
  induction vs with
  | nil => simp [canonElems]
  | cons v vs ih => simp [canonElems, ih]

theorem canonFields_cons (v : Value) (vs : List Value) :
    canonFields (v :: vs) = canonField v :: canonFields vs := by
  unfold canonField
  split <;> simp_all [canonFields]

theorem canonFields_eq_map (vs : List Value) : canonFields vs = vs.map canonField := by
  induction vs with
  | nil => simp [canonFields]
  | cons v vs ih => simp [canonFields_cons, ih]

theorem agrees_canon_all :
    (∀ v, noNilSliceRef v = true → validText v = true →
      agrees v (canon v) = true ∧ (isEmptyValue v || agrees v (canonField v)) = true) ∧
    (∀ vs, noNilSliceRefs vs = true → validTexts vs = true →
      agreesElems vs (canonElems vs) = true ∧ agreesFields vs (canonFields vs) = true) := by
  apply Value.induct
  · intro s _ hu
    have hs : coerceUTF8 s = s := coerceUTF8_of_valid s (by simpa [validText] using hu)
    simp [canon, canonField, agrees, hs]
  · intro _ _
    simp [canon, canonField, agrees, isEmptyValue]
  · intro v ih h hu
    have hu2 : validText v = true := by simpa [validText] using hu
    cases v with
    | str s =>
      have hs : coerceUTF8 s = s := coerceUTF8_of_valid s (by simpa [validText] using hu2)
      simp [canon, canonField, agrees, hs]
    | ptr p =>
      have h2 : noNilSliceRef (.ptr p) = true := by simpa [noNilSliceRef] using h
      have := (ih h2 hu2).1
      simp [canon, canonField, agrees, isEmptyValue, this]
    | slice s =>
      cases s with
      | none => simp [noNilSliceRef] at h
      | some vs =>
        have h2 : noNilSliceRef (.slice (some vs)) = true := by simpa [noNilSliceRef] using h
        have := (ih h2 hu2).1
        simp [canon, canonField, agrees, isEmptyValue] at this ⊢
        exact this
    | struct n vs =>
      have h2 : noNilSliceRef (.struct n vs) = true := by simpa [noNilSliceRef] using h
      have := (ih h2 hu2).1
      simp [canon, canonField, agrees, isEmptyValue] at this ⊢
      exact this
  · intro _ _
    simp [canon, canonField, agrees, isEmptyValue]
  · intro vs ih h hu
    have h2 : noNilSliceRefs vs = true := by simpa [noNilSliceRef] using h
    have hu2 : validTexts vs = true := by simpa [validText] using hu
    have := (ih h2 hu2).1
    cases vs with
    | nil => simp [canon, canonField, agrees, isEmptyValue, canonElems, agreesElems]
    | cons y ys =>
      simp [canon, canonField, agrees, isEmptyValue] at this ⊢
      exact this
  · intro n vs ih h hu
    have h2 : noNilSliceRefs vs = true := by simpa [noNilSliceRef] using h
    have hu2 : validTexts vs = true := by simpa [validText] using hu
    have := (ih h2 hu2).2
    simp [canon, canonField, agrees, isEmptyValue, this]
  · intro _ _
    simp [canonElems, canonFields, agreesElems, agreesFields]
  · intro v vs ihv ihvs h hu
    simp only [noNilSliceRefs, Bool.and_eq_true] at h
    simp only [validTexts, Bool.and_eq_true] at hu
    have h1 := ihv h.1 hu.1
    have h2 := ihvs h.2 hu.2
    rw [canonFields_cons]
    simp only [canonElems, agreesElems, agreesFields, Bool.and_eq_true]
    exact ⟨⟨h1.1, h2.1⟩, ⟨h1.2, h2.2⟩⟩

theorem canon_of_isCanon_all :
    (∀ v, isCanon v = true → canon v = v) ∧
    (∀ vs, (isCanonElems vs = true → canonElems vs = vs) ∧
      (isCanonFields vs = true → canonFields vs = vs)) := by
  apply Value.induct
  · intro s h
    simp [canon, coerceUTF8_of_valid s (by simpa [isCanon] using h)]
  · intro _
    simp [canon]
  · intro v ih h
    cases v with
    | str s =>
      have h2 : isCanon (.str s) = true := by simpa [isCanon] using h
      simp [canon, coerceUTF8_of_valid s (by simpa [isCanon] using h2)]
    | ptr p =>
      have h2 : isCanon (.ptr p) = true := by simpa [isCanon] using h
      simp [canon, ih h2]
    | slice s =>
      cases s with
      | none => simp [isCanon] at h
      | some vs =>
        have h2 : isCanon (.slice (some vs)) = true := by simpa [isCanon] using h
        have h3 := ih h2
        simp only [canon] at h3 ⊢
        rw [h3]
    | struct n vs =>
      have h2 : isCanon (.struct n vs) = true := by simpa [isCanon] using h
      have h3 := ih h2
      simp only [canon] at h3 ⊢
      rw [h3]
  · intro _
    simp [canon]
  · intro vs ih h
    have h2 : isCanonElems vs = true := by simpa [isCanon] using h
    simp [canon, ih.1 h2]
  · intro n vs ih h
    have h2 : isCanonFields vs = true := by simpa [isCanon] using h
    simp [canon, ih.2 h2]
  · simp [canonElems, canonFields]
  · intro v vs ihv ihvs
    refine ⟨?_, ?_⟩
    · intro h
      simp only [isCanonElems, Bool.and_eq_true] at h
      simp [canonElems, ihv h.1, ihvs.1 h.2]
    · intro h
      have hv : isCanon v = true ∧ isCanonFields vs = true ∧ canonField v = canon v := by
        cases v with
        | slice s =>
          cases s with
          | none => simpa [isCanonFields, canonField] using h
          | some ys =>
            cases ys with
            | nil => simp [isCanonFields] at h
            | cons y ys => simpa [isCanonFields, canonField] using h
        | str s => simpa [isCanonFields, canonField] using h
        | ptr p => simpa [isCanonFields, canonField] using h
        | struct m ws => simpa [isCanonFields, canonField] using h
      rw [canonFields_cons, hv.2.2, ihv hv.1, ihvs.2 hv.2.1]

theorem set_same {α : Type} (xs : List α) (i : Nat) (a : α) (h : xs[i]? = some a) :
    xs.set i a = xs := by
  induction xs generalizing i with
  | nil => rfl
  | cons x xs ih =>
    cases i with
    | zero =>
      simp only [List.getElem?_cons_zero, Option.some.injEq] at h
      simp [h]
    | succ i =>
      simp only [List.getElem?_cons_succ] at h
      simp [ih i h]

theorem decl_of_field (n : TypeName) (i : Nat) (f : Field)
    (hf : (fieldsOf n)[i]? = some f) : decl n = .struct (fieldsOf n) := by
  cases hdn : decl n with
  | struct fs => simp [fieldsOf, hdn]
  | string => simp [fieldsOf, hdn] at hf
  | slice e => simp [fieldsOf, hdn] at hf

theorem hasFieldTypes_length : ∀ (fs : List Field) (vs : List Value),
    hasFieldTypes fs vs = true → fs.length = vs.length
  | [], [], _ => rfl
  | [], _ :: _, h => by simp [hasFieldTypes] at h
  | _ :: _, [], h => by simp [hasFieldTypes] at h
  | f :: fs, v :: vs, h => by
    simp only [hasFieldTypes, Bool.and_eq_true] at h
    simp [hasFieldTypes_length fs vs h.2]

theorem hasFieldTypes_set : ∀ (fs : List Field) (vs : List Value) (i : Nat) (f : Field)
    (w : Value), hasFieldTypes fs vs = true → fs[i]? = some f → hasType f.type w = true →
    hasFieldTypes fs (vs.set i w) = true
  | [], [], _, _, _, _, hf, _ => by simp at hf
  | [], _ :: _, _, _, _, h, _, _ => by simp [hasFieldTypes] at h
  | _ :: _, [], _, _, _, h, _, _ => by simp [hasFieldTypes] at h
  | g :: fs, v :: vs, 0, f, w, h, hf, hw => by
    simp only [hasFieldTypes, Bool.and_eq_true] at h
    simp only [List.getElem?_cons_zero, Option.some.injEq] at hf
    subst hf
    simp [hasFieldTypes, hw, h.2]
  | g :: fs, v :: vs, i + 1, f, w, h, hf, hw => by
    simp only [hasFieldTypes, Bool.and_eq_true] at h
    simp only [List.getElem?_cons_succ] at hf
    simp [hasFieldTypes, h.1, hasFieldTypes_set fs vs i f w h.2 hf hw]


theorem hasNamedType_zero (n : TypeName) : hasNamedType n (zeroNamed n) = true := by
  cases n <;> decide

theorem hasNamedType_setField (n : TypeName) (v : Value) (i : Nat) (f : Field) (w : Value)
    (hv : hasNamedType n v = true) (hf : (fieldsOf n)[i]? = some f)
    (hw : hasType f.type w = true) : hasNamedType n (v.setField i w) = true := by
  have hd := decl_of_field n i f hf
  cases v with
  | str a => simp [hasNamedType, hd] at hv
  | ptr p => simp [hasNamedType] at hv
  | slice sl => cases sl <;> simp [hasNamedType, hd] at hv
  | struct m vs =>
    simp only [hasNamedType, hd, Bool.and_eq_true, beq_iff_eq] at hv
    have hset := hasFieldTypes_set (fieldsOf n) vs i f w hv.2 hf hw
    simp [Value.setField, hasNamedType, hd, hset, hv.1]

theorem nestedPremise_succ (k : Nat) :
    nestedPremise (k + 1) = (zeroNamed .Premise).setField 6 (ref (nestedPremise k)) := rfl

theorem nestedPremise_struct (k : Nat) : ∃ vs, nestedPremise k = .struct .Premise vs := by
  cases k <;> exact ⟨_, rfl⟩

theorem nestedPremise_typed (k : Nat) : hasNamedType .Premise (nestedPremise k) = true := by
  induction k with
  | zero => decide
  | succ k ih =>
    exact hasNamedType_setField .Premise _ 6
      ⟨"Premise", .pointer .Premise, "premise,omitempty"⟩ _
      (hasNamedType_zero _) (by rfl) (by simpa [hasType, ref] using ih)

theorem nestedPremise_plain (k : Nat) :
    noNilSliceRef (nestedPremise k) = true ∧ validText (nestedPremise k) = true := by
  induction k with
  | zero => exact ⟨by decide, by decide⟩
  | succ k ih =>
    obtain ⟨vs, hvs⟩ := nestedPremise_struct k
    rw [nestedPremise_succ, hvs]
    rw [hvs] at ih
    refine ⟨?_, ?_⟩
    · simpa [zeroNamed, decl, Value.setField, noNilSliceRef, noNilSliceRefs, ref, zeroType]
        using ih.1
    · simpa [zeroNamed, decl, Value.setField, validText, validTexts, ref, zeroType,
        validUTF8_nil] using ih.2

theorem marshal_nestedPremise_succ (k : Nat) :
    marshal (nestedPremise (k + 1)) = .obj [("premise", marshal (nestedPremise k))] := rfl

theorem depth_nestedPremise (k : Nat) : (marshal (nestedPremise k)).depth = k + 1 := by
  induction k with
  | zero => decide
  | succ k ih =>
    rw [marshal_nestedPremise_succ]
    simp only [JSON.depth, depthMembers, ih]
    omega

theorem marshal_deepTree (k : Nat) :
    Marshal (deepTree k) = .obj [("attr_version", .str (utf8 "2.0")),
      ("address_details", .arr [.obj [("locality",
        .obj [("premise", marshal (nestedPremise k))])]])] := rfl

/-- The deep tree is a well-typed XAL without reference to a nil sequence and with valid
text only, its version attribute is "2.0", and its document nests `k + 5` containers. -/
theorem deepTree_spec (k : Nat) :
    hasNamedType .XAL (deepTree k) = true ∧ noNilSliceRef (deepTree k) = true ∧
    validText (deepTree k) = true ∧ (deepTree k).field 0 = some (.str (utf8 "2.0")) ∧
    (Marshal (deepTree k)).depth = k + 5 := by
  obtain ⟨vs, hvs⟩ := nestedPremise_struct k
  have hp := nestedPremise_plain k
  refine ⟨?_, ?_, ?_, by rfl, ?_⟩
  · refine hasNamedType_setField .XAL _ 1
      ⟨"AddressDetails", .sliceOf .AddressDetails, "address_details,omitempty"⟩ _
      (hasNamedType_setField .XAL _ 0 ⟨"AttrVersion", .string, "attr_version,omitempty"⟩ _
        (hasNamedType_zero _) (by rfl) (by rfl)) (by rfl) ?_
    have h1 : hasNamedType .Locality
        ((zeroNamed .Locality).setField 9 (ref (nestedPremise k))) = true :=
      hasNamedType_setField .Locality _ 9 ⟨"Premise", .pointer .Premise, "premise,omitempty"⟩ _
        (hasNamedType_zero _) (by rfl) (by simpa [hasType, ref] using nestedPremise_typed k)
    have h2 : hasNamedType .AddressDetails ((zeroNamed .AddressDetails).setField 8
        (ref ((zeroNamed .Locality).setField 9 (ref (nestedPremise k))))) = true :=
      hasNamedType_setField .AddressDetails _ 8
        ⟨"Locality", .pointer .Locality, "locality,omitempty"⟩ _
        (hasNamedType_zero _) (by rfl) (by simpa [hasType, ref] using h1)
    simpa [hasType, sliceLit, ref, allPtrTo, hasPtrType] using h2
  · rw [hvs] at hp
    simpa [deepTree, hvs, zeroNamed, decl, Value.setField, noNilSliceRef, noNilSliceRefs, ref,
      sliceLit, zeroType] using hp.1
  · rw [hvs] at hp
    have h20 : validUTF8 (utf8 "2.0") = true := by decide
    simpa [deepTree, hvs, zeroNamed, decl, Value.setField, validText, validTexts, ref,
      sliceLit, zeroType, validUTF8_nil, h20] using hp.2
  · rw [marshal_deepTree]
    simp only [JSON.depth, depthMembers, depthElems, depth_nestedPremise]
    omega

/-- C1, amended.  For every XAL tree that holds no reference to a nil sequence, whose text
is valid UTF-8 throughout and whose document nests no more than 10000 arrays and objects,
decoding the JSON written for the tree succeeds and returns its round-trip image, which
equals the tree in every populated field and in the order and length of every sequence;
the image is the tree itself when the tree moreover holds no empty sequence that is not
nil. -/
theorem roundTrip_populated (t : Value) (ht : hasNamedType .XAL t = true)
    (hn : noNilSliceRef t = true) (hu : validText t = true)
    (hd : (Marshal t).depth ≤ maxNestingDepth) :
    Unmarshal .XAL (Marshal t) = some (canon t) ∧ agrees t (canon t) = true ∧
    (isCanon t = true → canon t = t) :=
  ⟨unmarshal_marshal .XAL t ht hd, (agrees_canon_all.1 t hn hu).1, canon_of_isCanon_all.1 t⟩

/-- Witness for C1: the tree with a dependent locality nested in a dependent locality is a
well-typed XAL without a reference to a nil sequence, with valid text and a document of
depth 8; it comes back whole, neither truncated nor duplicated. -/
theorem roundTrip_populated_witness :
    hasNamedType .XAL nestedTree = true ∧ noNilSliceRef nestedTree = true ∧
    validText nestedTree = true ∧ (Marshal nestedTree).depth = 8 ∧
    (Unmarshal .XAL (Marshal nestedTree) = some (canon nestedTree) ∧
      agrees nestedTree (canon nestedTree) = true ∧
      (isCanon nestedTree = true → canon nestedTree = nestedTree)) ∧
    isCanon nestedTree = true ∧
    Unmarshal .XAL (Marshal nestedTree) = some nestedTree :=
  ⟨by decide, by decide, by decide, by decide,
    roundTrip_populated nestedTree (by decide) (by decide) (by decide) (by decide),
    by decide, by rfl⟩

/-- C1 as stated fails, in three ways.  The XAL whose address holds a reference to a nil
AddressLines slice is written with the member `address_lines` set to null, and no tree
decoded from that document equals it in the populated field AddressLines.  The XAL whose
address has the usage attribute "\xff" is written with U+FFFD in place of the byte, and
the tree decoded from the document differs from it in that populated field.  The XAL whose
locality holds a chain of 9997 premises is written as a document that nests 10001
containers, which is not decoded at all, while the chain of 9996 premises comes back. -/
theorem roundTrip_not_identical :
    (hasNamedType .XAL nilLinesTree = true ∧
      Marshal nilLinesTree =
        .obj [("address_details", .arr [.obj [("address_lines", .null)]])] ∧
      ¬ ∃ t, Unmarshal .XAL (Marshal nilLinesTree) = some t ∧ agrees nilLinesTree t = true) ∧
    (hasNamedType .XAL badUsageTree = true ∧ noNilSliceRef badUsageTree = true ∧
      Marshal badUsageTree =
        .obj [("address_details", .arr [.obj [("attr_usage", .str [0xEF, 0xBF, 0xBD])]])] ∧
      ¬ ∃ t, Unmarshal .XAL (Marshal badUsageTree) = some t ∧ agrees badUsageTree t = true) ∧
    (hasNamedType .XAL (deepTree 9996) = true ∧ noNilSliceRef (deepTree 9996) = true ∧
      validText (deepTree 9996) = true ∧ (Marshal (deepTree 9996)).depth = 10001 ∧
      Unmarshal .XAL (Marshal (deepTree 9996)) = none ∧
      Unmarshal .XAL (Marshal (deepTree 9995)) = some (canon (deepTree 9995))) := by
  refine ⟨⟨by decide, by rfl, ?_⟩, ⟨by decide, by decide, by rfl, ?_⟩, ?_⟩
  · rintro ⟨t, h, ha⟩
    have h2 : Unmarshal .XAL (Marshal nilLinesTree) =
        some (lit .XAL [("AddressDetails", sliceLit [ref (lit .AddressDetails [])])]) := by rfl
    rw [h2] at h
    cases h
    revert ha
    decide
  · rintro ⟨t, h, ha⟩
    have h2 : Unmarshal .XAL (Marshal badUsageTree) =
        some (lit .XAL [("AddressDetails", sliceLit [ref (lit .AddressDetails [
          ("AttrUsage", .str [0xEF, 0xBF, 0xBD])])])]) := by rfl
    rw [h2] at h
    cases h
    revert ha
    decide
  · have h6 := deepTree_spec 9996
    have h5 := deepTree_spec 9995
    refine ⟨h6.1, h6.2.1, h6.2.2.1, h6.2.2.2.2, ?_, ?_⟩
    · exact unmarshal_deep .XAL _ (by rw [h6.2.2.2.2]; decide)
    · exact unmarshal_marshal .XAL _ h5.1 (by rw [h5.2.2.2.2]; decide)

theorem marshalFields_key (fs : List Field) : ∀ (vs : List Value) (k : String),
    k ∈ (marshalFields fs vs).map Prod.fst →
    ∃ (j : Nat) (f : Field) (v : Value), fs[j]? = some f ∧ vs[j]? = some v ∧ f.key = k ∧
      ¬ (f.omitempty = true ∧ isEmptyValue v = true) := by
  induction fs with
  | nil =>
    intro vs k h
    cases vs <;> simp [marshalFields] at h
  | cons f fs ih =>
    intro vs k h
    cases vs with
    | nil => simp [marshalFields] at h
    | cons v vs =>
      by_cases hc : f.omitempty = true ∧ isEmptyValue v = true
      · have hm : marshalFields (f :: fs) (v :: vs) = marshalFields fs vs := by
          simp [marshalFields, hc.1, hc.2]
        rw [hm] at h
        obtain ⟨j, g, w, h1, h2, h3, h4⟩ := ih vs k h
        exact ⟨j + 1, g, w, by simpa using h1, by simpa using h2, h3, h4⟩
      · have hm : marshalFields (f :: fs) (v :: vs) =
            (f.key, marshal v) :: marshalFields fs vs := by
          have : (f.omitempty && isEmptyValue v) = false := by
            cases ho : f.omitempty <;> cases he : isEmptyValue v <;> simp_all
          simp [marshalFields, this]
        rw [hm] at h
        simp only [List.map_cons, List.mem_cons] at h
        cases h with
        | inl h0 => exact ⟨0, f, v, by simp, by simp, h0.symm, hc⟩
        | inr h1 =>
          obtain ⟨j, g, w, h1, h2, h3, h4⟩ := ih vs k h1
          exact ⟨j + 1, g, w, by simpa using h1, by simpa using h2, h3, h4⟩

theorem key_index_unique (fs : List Field) (hnd : (fs.map Field.key).Nodup) :
    ∀ (i j : Nat) (f g : Field), fs[i]? = some f → fs[j]? = some g → f.key = g.key → i = j := by
  induction fs with
  | nil => intro i j f g h; simp at h
  | cons a fs ih =>
    intro i j f g hi hj hk
    simp only [List.map_cons, List.nodup_cons] at hnd
    cases i with
    | zero =>
      cases j with
      | zero => rfl
      | succ j =>
        simp only [List.getElem?_cons_zero, Option.some.injEq] at hi
        simp only [List.getElem?_cons_succ] at hj
        subst hi
        exact absurd (List.mem_map.mpr ⟨g, List.getElem?_mem hj, hk.symm⟩) hnd.1
    | succ i =>
      cases j with
      | zero =>
        simp only [List.getElem?_cons_zero, Option.some.injEq] at hj
        simp only [List.getElem?_cons_succ] at hi
        subst hj
        exact absurd (List.mem_map.mpr ⟨f, List.getElem?_mem hi, hk⟩) hnd.1
      | succ j =>
        simp only [List.getElem?_cons_succ] at hi hj
        rw [ih hnd.2 i j f g hi hj hk]

/-- C2.  Every field of every record type carries the omitempty option and has a type whose
zero value counts as empty (string, pointer or slice; no field holds a record by value);
in a record value of any declared type a field whose value is empty contributes no key to
the JSON object written for the record; and the zero value of every record type is written
as an object without members. -/
theorem unset_fields_omitted (n : TypeName) :
    (∀ f ∈ fieldsOf n, f.omitempty = true ∧ isEmptyValue (zeroType f.type) = true ∧
      hasType f.type (zeroType f.type) = true) ∧
    (∀ (vs : List Value), hasNamedType n (.struct n vs) = true →
      ∀ (i : Nat) (f : Field) (v : Value), (fieldsOf n)[i]? = some f → vs[i]? = some v →
        isEmptyValue v = true → f.key ∉ (Marshal (.struct n vs)).keys) ∧
    (∀ fs, decl n = .struct fs → Marshal (zeroNamed n) = .obj []) := by
  refine ⟨?_, ?_, ?_⟩
  · intro f hf
    refine ⟨omitempty_all n f hf, ?_, ?_⟩ <;> cases f.type <;> rfl
  · intro vs _ i f v hf hv he hk
    simp only [Marshal, marshal, JSON.keys] at hk
    obtain ⟨j, g, w, h1, h2, h3, h4⟩ := marshalFields_key (fieldsOf n) vs f.key hk
    have hij := key_index_unique (fieldsOf n) (keys_nodup n) j i g f h1 hf h3
    subst hij
    rw [hf] at h1
    rw [hv] at h2
    cases h1
    cases h2
    exact h4 ⟨omitempty_all n f (List.getElem?_mem hf), he⟩
  · cases n <;> first
      | (intro fs _; rfl)
      | (intro fs h; cases h)

/-- Witness for C2: in the example address the field AttrAddressType is empty, and the
document written for the example has no key `attr_address_type`. -/
theorem unset_fields_omitted_witness :
    hasNamedType .AddressDetails exampleAddress = true ∧
    (fieldsOf .AddressDetails)[0]? =
      some ⟨"AttrAddressType", .string, "attr_address_type,omitempty"⟩ ∧
    (structFields exampleAddress)[0]? = some (.str []) ∧
    "attr_address_type" ∉ (Marshal (.struct .AddressDetails (structFields exampleAddress))).keys :=
  ⟨by decide, by rfl, by rfl,
    (unset_fields_omitted .AddressDetails).2.1 (structFields exampleAddress) (by decide) 0
      ⟨"AttrAddressType", .string, "attr_address_type,omitempty"⟩ (.str []) (by rfl) (by rfl)
      (by rfl)⟩

theorem emptyValueRule_enum (n : TypeName) :
    ∀ p ∈ (fieldsOf n).enum, emptyValueRule n p.1 p.2 = true := by
  cases n <;> decide

/-- C3, amended.  For every field of every record type: unset, the field contributes no
key to the JSON object written for the record.  Set to the empty value of its type, a
pointer field (pointing at a zero record, an empty sequence or an empty string) is written
under its key; a string field set to the empty string is the unset record itself; and a
slice field set to the empty sequence is left out like the unset one. -/
theorem empty_value_states (n : TypeName) (i : Nat) (f : Field)
    (hf : (fieldsOf n)[i]? = some f) :
    f.key ∉ (Marshal (zeroNamed n)).keys ∧
    (∀ m, f.type = .pointer m →
      f.key ∈ (Marshal ((zeroNamed n).setField i (.ptr (some (zeroNamed m))))).keys) ∧
    (f.type = .string → (zeroNamed n).setField i (.str []) = zeroNamed n) ∧
    (∀ m, f.type = .sliceOf m →
      (Marshal ((zeroNamed n).setField i (.slice (some [])))).keys = []) := by
  have hr := emptyValueRule_enum n (i, f) ((List.mk_mem_enum_iff_getElem?).mpr hf)
  simp only [emptyValueRule] at hr
  refine ⟨?_, ?_, ?_, ?_⟩
  · cases ht : f.type <;> rw [ht] at hr <;>
      simp only [emptyIsWritten, emptyIsOmitted, Bool.and_eq_true, decide_eq_true_eq] at hr
    · rw [hr.1]
      simp
    · exact hr.1
    · rw [hr.1]
      simp
  · intro m ht
    rw [ht] at hr
    simp only [emptyIsWritten, Bool.and_eq_true, decide_eq_true_eq, ht, setButEmpty] at hr
    exact hr.2
  · intro ht
    have hd := decl_of_field n i f hf
    have hz : zeroNamed n = .struct n ((fieldsOf n).map fun g => zeroType g.type) := by
      simp only [zeroNamed]
      rw [hd]
    rw [hz]
    simp only [Value.setField]
    rw [set_same]
    simp [hf, ht, zeroType]
  · intro m ht
    rw [ht] at hr
    simp only [emptyIsOmitted, Bool.and_eq_true, decide_eq_true_eq, ht, setButEmpty] at hr
    exact hr.2

/-- Witness for C3: the pointer field Country of AddressDetails, written as an empty object
when it points at the zero Country. -/
theorem empty_value_states_witness :
    (fieldsOf .AddressDetails)[7]? = some ⟨"Country", .pointer .Country, "country,omitempty"⟩ ∧
    "country" ∈ (Marshal ((zeroNamed .AddressDetails).setField 7
      (.ptr (some (zeroNamed .Country))))).keys ∧
    Marshal ((zeroNamed .AddressDetails).setField 7 (.ptr (some (zeroNamed .Country)))) =
      .obj [("country", .obj [])] :=
  ⟨by rfl,
    (empty_value_states .AddressDetails 7 ⟨"Country", .pointer .Country, "country,omitempty"⟩
      (by rfl)).2.1 .Country rfl,
    by rfl⟩

/-- C3 as stated fails.  An AddressLine whose Text is set to the empty string is the
AddressLine whose Text is unset, and it is written without the key `text`; an XAL whose
AddressDetails is set to the empty sequence is written without the key `address_details`,
like the XAL whose AddressDetails is nil. -/
theorem empty_text_not_written :
    lit .AddressLine [("Text", .str [])] = zeroNamed .AddressLine ∧
    Marshal (lit .AddressLine [("Text", .str [])]) = .obj [] ∧
    emptyIsWritten .AddressLine 2 ⟨"Text", .string, "text,omitempty"⟩ = false ∧
    Marshal (lit .XAL [("AddressDetails", .slice (some []))]) = .obj [] ∧
    Marshal (lit .XAL [("AddressDetails", .slice none)]) = .obj [] ∧
    emptyIsWritten .XAL 1
      ⟨"AddressDetails", .sliceOf .AddressDetails, "address_details,omitempty"⟩ = false :=
  ⟨by rfl, by rfl, by decide, by rfl, by rfl, by decide⟩

/-- C4 on the code.  The field Code of PremiseNumber is a scalar that is neither named with
the Attr marker nor the Text payload, and its key is `code`; it is the only field of the
schema that breaks the naming rule for attributes, and no field breaks the rule that the
key begins with `attr_` exactly when the name begins with `Attr`.  A PremiseNumber is
written with the key `code` where the sibling PremiseNumberSuffix is written with
`attr_code`. -/
theorem premiseNumber_code_unmarked :
    (fieldsOf .PremiseNumber)[5]? = some ⟨"Code", .string, "code,omitempty"⟩ ∧
    (Field.mk "Code" .string "code,omitempty").isScalar = true ∧
    (Field.mk "Code" .string "code,omitempty").isAttr = false ∧
    (Field.mk "Code" .string "code,omitempty").key = "code" ∧
    attrRule ⟨"Code", .string, "code,omitempty"⟩ = false ∧
    (∀ n, ∀ f ∈ fieldsOf n, attrRule f = false → n = .PremiseNumber ∧ f.name = "Code") ∧
    (∀ n, ∀ f ∈ fieldsOf n, attrKeyRule f = true) ∧
    Marshal (lit .PremiseNumber [("Code", .str (utf8 "X1")), ("Text", .str (utf8 "12"))]) =
      .obj [("code", .str (utf8 "X1")), ("text", .str (utf8 "12"))] ∧
    Marshal (lit .PremiseNumberSuffix [("AttrCode", .str (utf8 "X1")), ("Text", .str (utf8 "A"))]) =
      .obj [("attr_code", .str (utf8 "X1")), ("text", .str (utf8 "A"))] := by
  refine ⟨by rfl, by decide, by decide, by decide, by decide, ?_, ?_, by rfl, by rfl⟩
  · intro n
    cases n <;> decide
  · intro n
    cases n <;> decide

/-- C5.  The json key of every field of every record type consists of lowercase letters
and underscores only and is the field name in lowercase-with-underscores form. -/
theorem keys_are_snake_case (n : TypeName) (f : Field) (hf : f ∈ fieldsOf n) :
    lowerSnake f.key = true ∧ f.key = snakeCase f.name := by
  revert f
  cases n <;> decide

/-- Witness for C5: the field AttrAddressType of AddressDetails has the key
attr_address_type; AddressDetails and ThoroughfareNumberRange are keyed alike. -/
theorem keys_are_snake_case_witness :
    (⟨"AttrAddressType", .string, "attr_address_type,omitempty"⟩ : Field) ∈
      fieldsOf .AddressDetails ∧
    (lowerSnake (Field.mk "AttrAddressType" .string "attr_address_type,omitempty").key = true ∧
      (Field.mk "AttrAddressType" .string "attr_address_type,omitempty").key =
        snakeCase (Field.mk "AttrAddressType" .string "attr_address_type,omitempty").name) ∧
    snakeCase "AttrAddressType" = "attr_address_type" ∧
    snakeCase "AddressDetails" = "address_details" ∧
    snakeCase "ThoroughfareNumberRange" = "thoroughfare_number_range" :=
  ⟨by decide, keys_are_snake_case .AddressDetails _ (by decide), by decide, by decide,
    by decide⟩

theorem canon_ptr (p : Option Value) : ∃ q, canon (.ptr p) = .ptr q := by
  cases p with
  | none => exact ⟨none, by simp [canon]⟩
  | some x =>
    cases x with
    | slice s =>
      cases s with
      | none => exact ⟨none, by simp [canon]⟩
      | some vs => exact ⟨some (canon (.slice (some vs))), by simp [canon]⟩
    | str s => exact ⟨some (canon (.str s)), by simp [canon]⟩
    | ptr q => exact ⟨some (canon (.ptr q)), by simp [canon]⟩
    | struct n vs => exact ⟨some (canon (.struct n vs)), by simp [canon]⟩

theorem entries_canonField (f : Value) : entries (canonField f) = (entries f).map canon := by
  cases f with
  | str s => simp [canonField, canon, entries]
  | ptr p =>
    cases p with
    | none => simp [canonField, canon, entries]
    | some x =>
      cases x with
      | str s => simp [canonField, canon, entries]
      | ptr q =>
        obtain ⟨r, hr⟩ := canon_ptr q
        simp [canonField, canon, entries, hr]
      | slice s =>
        cases s with
        | none => simp [canonField, canon, entries]
        | some vs => simp [canonField, canon, entries, canonElems_eq_map]
      | struct n vs => simp [canonField, canon, entries]
  | slice s =>
    cases s with
    | none => simp [canonField, canon, entries]
    | some vs =>
      cases vs with
      | nil => simp [canonField, entries]
      | cons y ys => simp [canonField, canon, entries, canonElems_eq_map]
  | struct n vs => simp [canonField, canon, entries]

theorem fieldEntries_canon (v : Value) (i : Nat) :
    fieldEntries (canon v) i = (fieldEntries v i).map canon := by
  cases v with
  | str s => simp [fieldEntries, Value.field, structFields, canon]
  | ptr p =>
    cases p with
    | none => simp [fieldEntries, Value.field, structFields, canon]
    | some x =>
      cases x with
      | slice s => cases s <;> simp [fieldEntries, Value.field, structFields, canon]
      | _ => simp [fieldEntries, Value.field, structFields, canon]
  | slice s => cases s <;> simp [fieldEntries, Value.field, structFields, canon]
  | struct n vs =>
    simp only [fieldEntries, Value.field, structFields, canon, canonFields_eq_map,
      List.getElem?_map]
    cases vs[i]? with
    | none => simp
    | some f => simp [entries_canonField]

theorem canonFields_text (vs : List Value)
    (h : (vs.all fun v => match v with
      | .str _ => true
      | _ => false) = true) (hu : validTexts vs = true) : canonFields vs = vs := by
  induction vs with
  | nil => simp [canonFields]
  | cons v vs ih =>
    simp only [List.all_cons, Bool.and_eq_true] at h
    simp only [validTexts, Bool.and_eq_true] at hu
    cases v with
    | str s =>
      have hs : coerceUTF8 s = s := coerceUTF8_of_valid s (by simpa [validText] using hu.1)
      simp [canonFields_cons, canonField, canon, ih h.2 hu.2, hs]
    | _ => simp at h

theorem canon_textEntry (e : Value) (h : textEntry e = true) (hu : validText e = true) :
    canon e = e := by
  cases e with
  | ptr p =>
    cases p with
    | none => simp [canon]
    | some x =>
      cases x with
      | struct n vs =>
        have h2 := canonFields_text vs (by simpa [textEntry, textOnly] using h)
          (by simpa [validText] using hu)
        simp [canon, h2]
      | _ => simp [textEntry, textOnly] at h
  | _ => simp [textEntry] at h

/-- C6, amended.  For every record of a declared type whose document nests no more than
10000 arrays and objects, and every field of it, decoding the JSON written for the record
returns a record whose field holds a sequence of the same length, whose k-th entry is the
round-trip image of the original k-th entry.  The entry is returned unchanged when its
text is valid UTF-8 and it holds neither a reference to a nil sequence nor an empty
sequence that is not nil, and so whenever it is nil or a record of text fields only that
hold valid UTF-8, as every AddressLine, AdministrativeAreaName, LocalityName,
DependentLocalityName, DependentLocalityNumber, SubPremiseName and SubPremiseNumber with
such text is. -/
theorem sequence_order_preserved (n : TypeName) (v : Value)
    (hv : hasNamedType n v = true) (hd : (Marshal v).depth ≤ maxNestingDepth) :
    ∃ v', Unmarshal n (Marshal v) = some v' ∧ ∀ i,
      (fieldEntries v' i).length = (fieldEntries v i).length ∧
      ∀ (k : Nat) (e : Value), (fieldEntries v i)[k]? = some e →
        (fieldEntries v' i)[k]? = some (canon e) ∧ (isCanon e = true → canon e = e) ∧
        (textEntry e = true → validText e = true → canon e = e) := by
  refine ⟨canon v, unmarshal_marshal n v hv hd, fun i => ?_⟩
  rw [fieldEntries_canon]
  refine ⟨by simp, fun k e hk => ⟨by simp [hk], canon_of_isCanon_all.1 e, canon_textEntry e⟩⟩

/-- Witness for C6: an AddressDetails with three AddressLine entries, written as a document
of depth 3, comes back with the same three entries in the same order. -/
theorem sequence_order_preserved_witness :
    hasNamedType .AddressDetails threeLines = true ∧ (Marshal threeLines).depth = 3 ∧
    (∃ v', Unmarshal .AddressDetails (Marshal threeLines) = some v' ∧ ∀ i,
      (fieldEntries v' i).length = (fieldEntries threeLines i).length ∧
      ∀ (k : Nat) (e : Value), (fieldEntries threeLines i)[k]? = some e →
        (fieldEntries v' i)[k]? = some (canon e) ∧ (isCanon e = true → canon e = e) ∧
        (textEntry e = true → validText e = true → canon e = e)) ∧
    fieldEntries threeLines 5 = [
      ref (lit .AddressLine [("Text", .str (utf8 "Flat 2"))]),
      ref (lit .AddressLine [("Text", .str (utf8 "10 Downing Street"))]),
      ref (lit .AddressLine [("Text", .str (utf8 "London"))])] ∧
    (Unmarshal .AddressDetails (Marshal threeLines)).map (fieldEntries · 5) =
      some (fieldEntries threeLines 5) :=
  ⟨by decide, by decide,
    sequence_order_preserved .AddressDetails threeLines (by decide) (by decide), by rfl, by rfl⟩

/-- C6 as stated fails, in three ways.  In the AddressDetails sequence of an XAL, the second
entry holds a reference to a nil AddressLines slice and comes back without it, so the entry
returned at index 1 is not the original entry at index 1.  In a sequence of two address
lines, the second line holds the bytes "caf\xe9 \xff" and comes back holding U+FFFD in
place of each of the two bytes that are not UTF-8, so the entry returned at index 1 is not
the original entry at index 1.  And the XAL whose document nests 10001 containers is not
decoded, so that no sequence comes back. -/
theorem sequence_entry_changed :
    (hasNamedType .XAL twoAddresses = true ∧
      ∃ v', Unmarshal .XAL (Marshal twoAddresses) = some v' ∧
        (fieldEntries v' 1)[0]? = (fieldEntries twoAddresses 1)[0]? ∧
        (fieldEntries twoAddresses 1)[1]? =
          some (ref (lit .AddressDetails [("AddressLines", ref (.slice none))])) ∧
        (fieldEntries v' 1)[1]? = some (ref (lit .AddressDetails [])) ∧
        (fieldEntries v' 1)[1]? ≠ (fieldEntries twoAddresses 1)[1]?) ∧
    (hasNamedType .AddressDetails latin1Lines = true ∧
      ∃ v', Unmarshal .AddressDetails (Marshal latin1Lines) = some v' ∧
        (fieldEntries v' 5)[0]? = (fieldEntries latin1Lines 5)[0]? ∧
        (fieldEntries latin1Lines 5)[1]? =
          some (ref (lit .AddressLine [("Text", .str latin1Text)])) ∧
        (fieldEntries v' 5)[1]? = some (ref (lit .AddressLine [("Text", .str replacedText)])) ∧
        (fieldEntries v' 5)[1]? ≠ (fieldEntries latin1Lines 5)[1]?) ∧
    (hasNamedType .XAL (deepTree 9996) = true ∧
      (fieldEntries (deepTree 9996) 1).length = 1 ∧
      Unmarshal .XAL (Marshal (deepTree 9996)) = none) := by
  refine ⟨⟨by decide, canon twoAddresses, by rfl, by rfl, by rfl, by rfl, ?_⟩,
    ⟨by decide, canon latin1Lines, by rfl, by rfl, by rfl, by rfl, ?_⟩, ?_⟩
  · intro h
    have h1 : (fieldEntries (canon twoAddresses) 1)[1]? =
        some (ref (lit .AddressDetails [])) := by
      rfl
    have h2 : (fieldEntries twoAddresses 1)[1]? =
        some (ref (lit .AddressDetails [("AddressLines", ref (.slice none))])) := by rfl
    rw [h1, h2] at h
    have h3 := congrArg (fun o => o.map (fun e => agrees e (ref (lit .AddressDetails [])))) h
    revert h3
    decide
  · intro h
    have h1 : (fieldEntries (canon latin1Lines) 5)[1]? =
        some (ref (lit .AddressLine [("Text", .str replacedText)])) := by
      rfl
    have h2 : (fieldEntries latin1Lines 5)[1]? =
        some (ref (lit .AddressLine [("Text", .str latin1Text)])) := by rfl
    rw [h1, h2] at h
    have h3 := congrArg (fun o => o.map (fun e =>
      agrees e (ref (lit .AddressLine [("Text", .str replacedText)])))) h
    revert h3
    decide
  · have h6 := deepTree_spec 9996
    exact ⟨h6.1, by rfl, unmarshal_deep .XAL _ (by rw [h6.2.2.2.2]; decide)⟩

theorem isUnset_canonField (w : Value) (h : isEmptyValue w = true) :
    isUnset (canonField w) = true := by
  cases w with
  | str s =>
    have hs : s = [] := by simpa [isEmptyValue] using h
    subst hs
    rfl
  | ptr p => cases p <;> simp_all [isEmptyValue, canonField, canon, isUnset]
  | slice s =>
    cases s with
    | none => simp [canonField, canon, isUnset]
    | some vs =>
      cases vs with
      | nil => simp [canonField, isUnset]
      | cons y ys => simp [isEmptyValue] at h
  | struct n vs => simp [isEmptyValue] at h

theorem step_canon (v w : Value) (s : Step) (p : List Step) (hs : step v s = some w)
    (hp : ∃ u, follow w p = some u) (hne : p ≠ []) :
    step (canon v) s = some (canon w) := by
  obtain ⟨u, hu⟩ := hp
  cases p with
  | nil => exact absurd rfl hne
  | cons s2 p2 =>
    have hw : ∃ x, step w s2 = some x := by
      simp only [follow] at hu
      cases hx : step w s2 with
      | none => simp [hx] at hu
      | some x => exact ⟨x, rfl⟩
    obtain ⟨x, hx⟩ := hw
    cases v with
    | str a => cases s <;> simp [step] at hs
    | ptr q =>
      cases q with
      | none => cases s <;> simp [step] at hs
      | some y =>
        cases s with
        | deref =>
          simp only [step, Option.some.injEq] at hs
          subst hs
          cases y with
          | slice sl =>
            cases sl with
            | none => cases s2 <;> simp [step] at hx
            | some vs => simp [canon, step]
          | str a => simp [canon, step]
          | ptr r => simp [canon, step]
          | struct n vs => simp [canon, step]
        | field i => simp [step] at hs
        | elem i => simp [step] at hs
    | slice sl =>
      cases sl with
      | none => cases s <;> simp [step] at hs
      | some vs =>
        cases s with
        | elem i =>
          simp only [step] at hs
          simp [canon, step, canonElems_eq_map, hs]
        | field i => simp [step] at hs
        | deref => simp [step] at hs
    | struct n vs =>
      cases s with
      | field i =>
        simp only [step] at hs
        have hcw : canonField w = canon w := by
          cases w with
          | slice sl =>
            cases sl with
            | none => simp [canonField]
            | some ys =>
              cases ys with
              | nil => cases s2 <;> simp [step] at hx
              | cons y ys => simp [canonField]
          | str a => simp [canonField]
          | ptr r => simp [canonField]
          | struct m ws => simp [canonField]
        simp [canon, step, canonFields_eq_map, hs, hcw]
      | deref => simp [step] at hs
      | elem i => simp [step] at hs

theorem follow_canon_unset (p : List Step) : ∀ (v : Value) (i : Nat) (w : Value),
    follow v (p ++ [.field i]) = some w → isEmptyValue w = true →
    ∃ w', follow (canon v) (p ++ [.field i]) = some w' ∧ isUnset w' = true := by
  induction p with
  | nil =>
    intro v i w h he
    simp only [List.nil_append, follow] at h ⊢
    cases v with
    | struct n vs =>
      have hi : vs[i]? = some w := by
        cases hvi : vs[i]? with
        | none => simp [step, hvi] at h
        | some x => simpa [step, hvi] using h
      refine ⟨canonField w, ?_, isUnset_canonField w he⟩
      simp [canon, step, canonFields_eq_map, hi]
    | str a => simp [step] at h
    | ptr q => cases q <;> simp [step] at h
    | slice sl => cases sl <;> simp [step] at h
  | cons s p ih =>
    intro v i w h he
    simp only [List.cons_append, follow] at h ⊢
    cases hs : step v s with
    | none => simp [hs] at h
    | some x =>
      simp only [hs] at h
      have hc := step_canon v x s (p ++ [.field i]) hs ⟨w, h⟩ (by simp)
      simp only [hc]
      exact ih x i w h he

/-- C7.  For every XAL tree whose document nests no more than 10000 arrays and objects,
decoding the JSON written for it succeeds; and whenever decoding the JSON written for an
XAL tree returns a tree, every field of every record of the original that is unset (empty
text, nil pointer, sequence of length 0) is, at the same place of the returned tree,
unset: the empty string, the nil pointer, the nil slice.  In particular the XAL with
AttrVersion unset and an empty AddressDetails sequence is written as an object without
members, so with neither key `attr_version` nor key `address_details`, and is decoded to
the XAL whose AttrVersion is the empty string and whose AddressDetails is nil. -/
theorem unset_stays_unset :
    (∀ t, hasNamedType .XAL t = true → (Marshal t).depth ≤ maxNestingDepth →
      ∃ t', Unmarshal .XAL (Marshal t) = some t') ∧
    (∀ t t', hasNamedType .XAL t = true → Unmarshal .XAL (Marshal t) = some t' →
      ∀ (p : List Step) (i : Nat) (w : Value),
        follow t (p ++ [.field i]) = some w → isEmptyValue w = true →
        ∃ w', follow t' (p ++ [.field i]) = some w' ∧ isUnset w' = true) ∧
    (hasNamedType .XAL emptyXAL = true ∧
      emptyXAL.field 0 = some (.str []) ∧ emptyXAL.field 1 = some (.slice (some [])) ∧
      Marshal emptyXAL = .obj [] ∧
      Unmarshal .XAL (Marshal emptyXAL) = some (zeroNamed .XAL) ∧
      (zeroNamed .XAL).field 0 = some (.str []) ∧
      (zeroNamed .XAL).field 1 = some (.slice none)) := by
  refine ⟨fun t ht hd => ⟨canon t, unmarshal_marshal .XAL t ht hd⟩,
    fun t t' ht hu p i w h he => ?_,
    by decide, by rfl, by rfl, by rfl, by rfl, by rfl, by rfl⟩
  rw [(unmarshal_marshal_some .XAL t t' ht hu).2]
  exact follow_canon_unset p t i w h he

/-- Witness for C7: the XAL with an empty AddressDetails sequence is a well-typed XAL whose
field AddressDetails is unset and whose document has depth 1; it is decoded, to a tree
whose field AddressDetails is unset. -/
theorem unset_stays_unset_witness :
    hasNamedType .XAL emptyXAL = true ∧ (Marshal emptyXAL).depth = 1 ∧
    follow emptyXAL ([] ++ [.field 1]) = some (.slice (some [])) ∧
    isEmptyValue (.slice (some [])) = true ∧
    (∃ t', Unmarshal .XAL (Marshal emptyXAL) = some t') ∧
    ∃ w', follow (zeroNamed .XAL) ([] ++ [.field 1]) = some w' ∧ isUnset w' = true :=
  ⟨by decide, by decide, by rfl, by rfl, unset_stays_unset.1 emptyXAL (by decide) (by decide),
    unset_stays_unset.2.1 emptyXAL (zeroNamed .XAL) (by decide) (by rfl) [] 1
      (.slice (some [])) (by rfl) (by rfl)⟩

/-- C8.  The example AddressDetails (two address lines, a country name code under the
scheme iso.3166-2, one locality name, every other field unset) is written as the document
`exampleDocument`: it has the key `address_lines` holding the two lines in order, its path
country, country_name_code, attr_scheme holds "iso.3166-2", its objects hold no other key
than those of the populated fields, and decoding it returns the example itself. -/
theorem example_address_roundTrip :
    hasNamedType .AddressDetails exampleAddress = true ∧
    Marshal exampleAddress = exampleDocument ∧
    (Marshal exampleAddress).keys = ["address_lines", "country", "locality"] ∧
    (Marshal exampleAddress).get "address_lines" =
      some (.arr [.obj [("text", .str (utf8 "123 Main St"))],
        .obj [("text", .str (utf8 "Suite 400"))]]) ∧
    (((Marshal exampleAddress).get "country").bind (·.get "country_name_code")).bind
      (·.get "attr_scheme") = some (.str (utf8 "iso.3166-2")) ∧
    (((Marshal exampleAddress).get "country").map JSON.keys) = some ["country_name_code"] ∧
    ((((Marshal exampleAddress).get "country").bind (·.get "country_name_code")).map
      JSON.keys) = some ["attr_scheme", "text"] ∧
    (((Marshal exampleAddress).get "locality").map JSON.keys) = some ["locality_name"] ∧
    Unmarshal .AddressDetails (Marshal exampleAddress) = some exampleAddress :=
  ⟨by decide, by rfl, by rfl, by rfl, by rfl, by rfl, by rfl, by rfl, by rfl⟩

theorem textValue_spec (t : GoType) (s : GoString) (w : Value)
    (hw : textValue t s = some w) :
    hasType t w = true ∧ textValue t (coerceUTF8 s) = some (canonField w) := by
  cases t with
  | string =>
    simp only [textValue, Option.some.injEq] at hw
    subst hw
    exact ⟨by rfl, by simp [textValue, canonField, canon]⟩
  | pointer m =>
    cases hd : decl m with
    | string =>
      simp only [textValue, hd, Option.some.injEq] at hw
      subst hw
      exact ⟨by simp [hasType, hasNamedType, hd], by simp [textValue, hd, canonField, canon]⟩
    | struct fs => simp [textValue, hd] at hw
    | slice e => simp [textValue, hd] at hw
  | sliceOf m => simp [textValue] at hw

/-- C9, amended.  For every byte string s, every record of a declared type and every text
field of it (a string field, or a pointer to a declared string type), the record with that
field holding s is again a record of the type, whatever the length and the bytes of s.
When the document written for it nests no more than 10000 arrays and objects, decoding it
returns a record whose field holds s coerced to valid UTF-8, which is s itself, unchanged,
whenever s is valid UTF-8. -/
theorem text_unconstrained (s : GoString) (n : TypeName) (v : Value) (i : Nat) (f : Field)
    (w : Value) (hv : hasNamedType n v = true) (hf : (fieldsOf n)[i]? = some f)
    (hw : textValue f.type s = some w)
    (hd : (Marshal (v.setField i w)).depth ≤ maxNestingDepth) :
    hasNamedType n (v.setField i w) = true ∧
    ∃ v', Unmarshal n (Marshal (v.setField i w)) = some v' ∧
      v'.field i = textValue f.type (coerceUTF8 s) ∧
      (validUTF8 s = true → v'.field i = some w) := by
  have hdn := decl_of_field n i f hf
  obtain ⟨hwt, hwc⟩ := textValue_spec f.type s w hw
  have htyped := hasNamedType_setField n v i f w hv hf hwt
  refine ⟨htyped, canon (v.setField i w), unmarshal_marshal n _ htyped hd, ?_⟩
  have hfield : (canon (v.setField i w)).field i = textValue f.type (coerceUTF8 s) := by
    cases v with
    | str a => simp [hasNamedType, hdn] at hv
    | ptr p => simp [hasNamedType] at hv
    | slice sl => cases sl <;> simp [hasNamedType, hdn] at hv
    | struct m vs =>
      simp only [hasNamedType, hdn, Bool.and_eq_true, beq_iff_eq] at hv
      have hlen := hasFieldTypes_length (fieldsOf n) vs hv.2
      have hi : i < vs.length := by
        have := (List.getElem?_eq_some.mp hf).1
        omega
      rw [hwc]
      simp [Value.setField, Value.field, structFields, canon, canonFields_eq_map, hi]
  refine ⟨hfield, fun hval => ?_⟩
  rw [hfield, coerceUTF8_of_valid s hval, hw]

/-- Witness for C9: an AddressDetails whose AttrAddressType is set to a text of 39
characters, more than the 23 of the field comment; the text is valid UTF-8 and the
document has depth 1. -/
theorem text_unconstrained_witness :
    hasNamedType .AddressDetails (zeroNamed .AddressDetails) = true ∧
    (fieldsOf .AddressDetails)[0]? =
      some ⟨"AttrAddressType", .string, "attr_address_type,omitempty"⟩ ∧
    "Residential and business correspondence".length = 39 ∧
    (utf8 "Residential and business correspondence").length = 39 ∧
    validUTF8 (utf8 "Residential and business correspondence") = true ∧
    (hasNamedType .AddressDetails ((zeroNamed .AddressDetails).setField 0
        (.str (utf8 "Residential and business correspondence"))) = true ∧
      ∃ v', Unmarshal .AddressDetails (Marshal ((zeroNamed .AddressDetails).setField 0
          (.str (utf8 "Residential and business correspondence")))) = some v' ∧
        v'.field 0 = textValue .string
          (coerceUTF8 (utf8 "Residential and business correspondence")) ∧
        (validUTF8 (utf8 "Residential and business correspondence") = true →
          v'.field 0 = some (.str (utf8 "Residential and business correspondence")))) :=
  ⟨by decide, by rfl, by decide, by decide, by decide,
    text_unconstrained (utf8 "Residential and business correspondence") .AddressDetails
      (zeroNamed .AddressDetails) 0 ⟨"AttrAddressType", .string, "attr_address_type,omitempty"⟩
      (.str (utf8 "Residential and business correspondence")) (by decide) (by rfl) (by rfl)
      (by decide)⟩

/-- C9 as stated fails.  The AddressLine whose Text holds the six bytes "caf\xe9 \xff" is a
valid value, but its text is not UTF-8: it is written with U+FFFD in place of each of the
bytes 0xE9 and 0xFF, and the record decoded from the document holds the ten bytes of that
replaced text, not the original six.  And an XAL whose version attribute is "2.0" and whose
document nests 10001 containers is a valid value that is not decoded at all. -/
theorem text_not_utf8_changed :
    (hasNamedType .AddressLine (lit .AddressLine [("Text", .str latin1Text)]) = true ∧
      validUTF8 latin1Text = false ∧ coerceUTF8 latin1Text = replacedText ∧
      latin1Text.length = 6 ∧ replacedText.length = 10 ∧
      Marshal (lit .AddressLine [("Text", .str latin1Text)]) =
        .obj [("text", .str replacedText)] ∧
      Unmarshal .AddressLine (Marshal (lit .AddressLine [("Text", .str latin1Text)])) =
        some (lit .AddressLine [("Text", .str replacedText)]) ∧
      ¬ ∃ v', Unmarshal .AddressLine
          (Marshal (lit .AddressLine [("Text", .str latin1Text)])) = some v' ∧
        v'.field 2 = some (.str latin1Text)) ∧
    (hasNamedType .XAL (deepTree 9996) = true ∧
      (deepTree 9996).field 0 = some (.str (utf8 "2.0")) ∧
      validUTF8 (utf8 "2.0") = true ∧
      Unmarshal .XAL (Marshal (deepTree 9996)) = none) := by
  refine ⟨⟨by decide, by decide, by decide, by decide, by decide, by rfl, by rfl, ?_⟩, ?_⟩
  · rintro ⟨v', h, hf⟩
    have h2 : Unmarshal .AddressLine (Marshal (lit .AddressLine [("Text", .str latin1Text)])) =
        some (lit .AddressLine [("Text", .str replacedText)]) := by rfl
    rw [h2] at h
    cases h
    have h3 : (lit .AddressLine [("Text", .str replacedText)]).field 2 =
        some (.str replacedText) := by rfl
    rw [h3] at hf
    have h4 : replacedText = latin1Text := by
      injection hf with hf
      injection hf
    revert h4
    decide
  · have h6 := deepTree_spec 9996
    exact ⟨h6.1, h6.2.2.2.1, by decide, unmarshal_deep .XAL _ (by rw [h6.2.2.2.2]; decide)⟩

/-- C10 on the code.  DependentLocality declares AttrUsageType and AttrConnector but no
field AttrIndicator, which its doc comment describes; Locality and AdministrativeArea do
declare AttrIndicator.  Premise declares the four attributes its comment describes and
Locality declares AttrUsageType.  A document with the member `attr_indicator` decodes to a
DependentLocality that holds nothing of it, and to a Locality that holds it. -/
theorem dependentLocality_lacks_AttrIndicator :
    "AttrIndicator" ∈ documentedAttrs .DependentLocality ∧
    "AttrIndicator" ∉ fieldNames .DependentLocality ∧
    "AttrUsageType" ∈ fieldNames .DependentLocality ∧
    "AttrConnector" ∈ fieldNames .DependentLocality ∧
    "AttrIndicator" ∈ fieldNames .Locality ∧
    "AttrIndicator" ∈ fieldNames .AdministrativeArea ∧
    (∀ a ∈ documentedAttrs .Premise, a ∈ fieldNames .Premise) ∧
    (∀ a ∈ documentedAttrs .Locality, a ∈ fieldNames .Locality) ∧
    Unmarshal .DependentLocality (.obj [("attr_indicator", .str (utf8 "(Dist)"))]) =
      some (zeroNamed .DependentLocality) ∧
    Unmarshal .Locality (.obj [("attr_indicator", .str (utf8 "(Dist)"))]) =
      some (lit .Locality [("AttrIndicator", .str (utf8 "(Dist)"))]) := by
  refine ⟨by decide, by decide, by decide, by decide, by decide, by decide, by decide,
    by decide, by rfl, by rfl⟩

theorem nestedDependentLocality_spec (k : Nat) :
    hasNamedType .DependentLocality (nestedDependentLocality k) = true ∧
    selfChain .DependentLocality (nestedDependentLocality k) = k + 1 := by
  induction k with
  | zero => exact ⟨by decide, by decide⟩
  | succ k ih =>
    refine ⟨?_, ?_⟩
    · exact hasNamedType_setField .DependentLocality _ 3
        ⟨"DependentLocality", .pointer .DependentLocality, "dependent_locality,omitempty"⟩ _
        (hasNamedType_zero _) (by rfl) (by simpa [hasType, ref] using ih.1)
    · have h : selfChain .DependentLocality (nestedDependentLocality (k + 1)) =
          1 + selfChain .DependentLocality (nestedDependentLocality k) := by
        simp [nestedDependentLocality, nestVia, zeroNamed, decl, Value.setField, selfChain,
          selfChainList, selfChainChild, ref, zeroType]
      rw [h, ih.2]
      omega

theorem nestedPremise_spec (k : Nat) :
    hasNamedType .Premise (nestedPremise k) = true ∧
    selfChain .Premise (nestedPremise k) = k + 1 := by
  induction k with
  | zero => exact ⟨by decide, by decide⟩
  | succ k ih =>
    refine ⟨?_, ?_⟩
    · exact hasNamedType_setField .Premise _ 6
        ⟨"Premise", .pointer .Premise, "premise,omitempty"⟩ _
        (hasNamedType_zero _) (by rfl) (by simpa [hasType, ref] using ih.1)
    · have h : selfChain .Premise (nestedPremise (k + 1)) =
          1 + selfChain .Premise (nestedPremise k) := by
        simp [nestedPremise, nestVia, zeroNamed, decl, Value.setField, selfChain,
          selfChainList, selfChainChild, ref, zeroType]
      rw [h, ih.2]
      omega

theorem nestedSubPremise_spec (k : Nat) :
    hasNamedType .SubPremise (nestedSubPremise k) = true ∧
    selfChain .SubPremise (nestedSubPremise k) = k + 1 := by
  induction k with
  | zero => exact ⟨by decide, by decide⟩
  | succ k ih =>
    refine ⟨?_, ?_⟩
    · exact hasNamedType_setField .SubPremise _ 1
        ⟨"SubPremise", .sliceOf .SubPremise, "sub_premise,omitempty"⟩ _
        (hasNamedType_zero _) (by rfl)
        (by simpa [hasType, ref, sliceLit, allPtrTo, hasPtrType, nestedSubPremise] using ih.1)
    · have h : selfChain .SubPremise (nestedSubPremise (k + 1)) =
          1 + selfChain .SubPremise (nestedSubPremise k) := by
        simp [nestedSubPremise, nestVia, zeroNamed, decl, Value.setField, selfChain,
          selfChainList, selfChainChild, ref, sliceLit, zeroType]
      rw [h, ih.2]
      omega

/-- C11.  The schema sets no bound on the nesting of its recursive fields: for every
natural number k there is a value of type DependentLocality whose chain of nested
DependentLocality children has length k (k + 1 records with the outermost), a value of
type Premise with k nested Premise levels, and a value of type SubPremise with k nested
SubPremise levels. -/
theorem nesting_unbounded (k : Nat) :
    (hasNamedType .DependentLocality (nestedDependentLocality k) = true ∧
      selfChain .DependentLocality (nestedDependentLocality k) = k + 1) ∧
    (hasNamedType .Premise (nestedPremise k) = true ∧
      selfChain .Premise (nestedPremise k) = k + 1) ∧
    (hasNamedType .SubPremise (nestedSubPremise k) = true ∧
      selfChain .SubPremise (nestedSubPremise k) = k + 1) :=
  ⟨nestedDependentLocality_spec k, nestedPremise_spec k, nestedSubPremise_spec k⟩

theorem localityLevels_spec (k : Nat) :
    hasNamedType .Locality (localityLevels k) = true ∧
    dependentLevels (localityLevels k) = k := by
  cases k with
  | zero => exact ⟨by decide, by decide⟩
  | succ k =>
    have ih := nestedDependentLocality_spec k
    refine ⟨?_, ?_⟩
    · exact hasNamedType_setField .Locality _ 3
        ⟨"DependentLocality", .pointer .DependentLocality, "dependent_locality,omitempty"⟩ _
        (hasNamedType_zero _) (by rfl) (by simpa [hasType, ref] using ih.1)
    · have h : dependentLevels (localityLevels (k + 1)) =
          selfChain .DependentLocality (nestedDependentLocality k) := by
        simp [dependentLevels, localityLevels, zeroNamed, decl, Value.setField, Value.field, structFields,
          selfChainChild, ref, zeroType]
      rw [h, ih.2]

/-- C12, counterexample.  A value of type Locality with three levels of DependentLocality
nesting is well typed: its DependentLocality holds a DependentLocality that itself holds a
DependentLocality, so the nesting is deeper than two, and the value is read back unchanged
from its serialized form. -/
theorem locality_three_levels :
    hasNamedType .Locality (localityLevels 3) = true ∧
    dependentLevels (localityLevels 3) = 3 ∧
    ¬ dependentLevels (localityLevels 3) ≤ 2 ∧
    follow (localityLevels 3) [.field 3, .deref, .field 3, .deref, .field 3] =
      some (ref (zeroNamed .DependentLocality)) ∧
    Unmarshal .Locality (Marshal (localityLevels 3)) = some (localityLevels 3) :=
  ⟨by decide, by decide, by decide, by rfl, by rfl⟩

/-- C12, amended.  The Locality type puts no bound on DependentLocality nesting: for every
natural number k there is a well-typed Locality value with exactly k levels of
DependentLocality below it, so the two levels of the documentation are a convention that
the types do not enforce. -/
theorem locality_levels_unbounded (k : Nat) :
    hasNamedType .Locality (localityLevels k) = true ∧
    dependentLevels (localityLevels k) = k :=
  localityLevels_spec k

/-- C13.  Exactly three types have a field that refers to the type itself:
DependentLocality, through one optional (pointer) field DependentLocality; Premise, through
one optional (pointer) field Premise, next to which it holds a sequence of SubPremise; and
SubPremise, through one sequence field SubPremise.  No other declared type has such a
field. -/
theorem self_recursive_types :
    (∀ n : TypeName, selfRecursive n = true ↔
      n = .DependentLocality ∨ n = .Premise ∨ n = .SubPremise) ∧
    selfFields .DependentLocality =
      [⟨"DependentLocality", .pointer .DependentLocality, "dependent_locality,omitempty"⟩] ∧
    selfFields .Premise = [⟨"Premise", .pointer .Premise, "premise,omitempty"⟩] ∧
    (fieldsOf .Premise)[11]? =
      some ⟨"SubPremise", .sliceOf .SubPremise, "sub_premise,omitempty"⟩ ∧
    selfFields .SubPremise =
      [⟨"SubPremise", .sliceOf .SubPremise, "sub_premise,omitempty"⟩] := by
  refine ⟨?_, by decide, by decide, by decide, by decide⟩
  intro n
  cases n <;> decide

theorem addNew_sound (P : TypeName → Prop) :
    ∀ (ts acc : List TypeName), (∀ t ∈ acc, P t) → (∀ t ∈ ts, P t) →
      ∀ t ∈ addNew acc ts, P t := by
  intro ts
  induction ts with
  | nil => intro acc ha _ t ht; exact ha t (by simpa [addNew] using ht)
  | cons a ts ih =>
    intro acc ha hts t ht
    have hrest : ∀ t ∈ ts, P t := fun t h => hts t (List.mem_cons_of_mem _ h)
    by_cases hmem : a ∈ acc
    · rw [addNew, if_pos hmem] at ht
      exact ih acc ha hrest t ht
    · rw [addNew, if_neg hmem] at ht
      refine ih (acc ++ [a]) ?_ hrest t ht
      intro u hu
      rcases List.mem_append.mp hu with h | h
      · exact ha u h
      · rw [List.mem_singleton.mp h]
        exact hts a (List.mem_cons_self _ _)

theorem foundWithin_sound : ∀ (k : Nat) (t : TypeName), t ∈ foundWithin k → Reach .XAL t := by
  intro k
  induction k with
  | zero =>
    intro t ht
    rw [foundWithin, List.mem_singleton] at ht
    rw [ht]
    exact Reach.here _
  | succ k ih =>
    intro t ht
    rw [foundWithin] at ht
    refine addNew_sound (Reach .XAL) _ _ ih ?_ t ht
    intro c hc
    rcases List.mem_flatMap.mp hc with ⟨b, hb, hcb⟩
    exact Reach.next (ih b hb) hcb

theorem foundWithin_all (n : TypeName) : n ∈ foundWithin 5 := by
  cases n <;> decide

theorem XAL_not_child (b : TypeName) : TypeName.XAL ∉ childTypes b := by
  cases b <;> decide

theorem reach_XAL (r : TypeName) (h : Reach r .XAL) : r = .XAL := by
  cases h with
  | here => rfl
  | next before child => exact absurd child (XAL_not_child _)

/-- C14.  XAL is the single entry point of the schema: every declared type is reached from
XAL by following child fields (pointer fields and the elements of sequence fields), XAL is
the type of no field, and XAL is the only type from which every declared type is
reached. -/
theorem XAL_single_entry :
    (∀ n : TypeName, Reach .XAL n) ∧
    (∀ b : TypeName, TypeName.XAL ∉ childTypes b) ∧
    (∀ r : TypeName, (∀ n : TypeName, Reach r n) → r = .XAL) :=
  ⟨fun n => foundWithin_sound 5 n (foundWithin_all n), XAL_not_child,
    fun r h => reach_XAL r (h .XAL)⟩

/-- C15.  Within every declared type the json keys of the fields are pairwise distinct:
the list of keys has no duplicate, and two field positions of one type that carry the same
key are the same position, so the map from the fields of a record to their keys is
injective. -/
theorem keys_pairwise_distinct (n : TypeName) :
    ((fieldsOf n).map Field.key).Nodup ∧
    ∀ (i j : Nat) (f g : Field), (fieldsOf n)[i]? = some f → (fieldsOf n)[j]? = some g →
      f.key = g.key → i = j :=
  ⟨keys_nodup n, key_index_unique (fieldsOf n) (keys_nodup n)⟩

theorem text_xor_child (n : TypeName) (h : isRecord n = true) :
    hasTextField n = !hasChildField n := by
  revert h
  cases n <;> decide

theorem text_field_shape (n : TypeName) :
    (fieldsOf n).all (fun f =>
      (f.name == "Text") == (f.key == "text") &&
        (!(f.name == "Text") || f.type == .string)) = true := by
  cases n <;> decide

theorem not_record_iff (n : TypeName) :
    isRecord n = false ↔
      n = .AddressLines ∨ n = .ThoroughfareLeadingType ∨ n = .ThoroughfareName := by
  cases n <;> decide

/-- C16, amended.  A type declared as a struct has a Text field exactly when it has no child
field (no pointer field and no sequence field); in every type the field named Text is the
field keyed text and is a string.  The three declared types that are not structs have no
fields at all: AddressLines is a sequence of AddressLine, and the two leaf elements
ThoroughfareLeadingType and ThoroughfareName are plain strings, whose values are the text
itself and are written as a JSON string, not as an object with a key text. -/
theorem text_iff_no_children :
    (∀ n : TypeName, isRecord n = true →
      (hasTextField n = true ↔ hasChildField n = false)) ∧
    (∀ (n : TypeName) (f : Field), f ∈ fieldsOf n →
      (f.name = "Text" ↔ f.key = "text") ∧ (f.name = "Text" → f.type = .string)) ∧
    (∀ n : TypeName, isRecord n = false ↔
      n = .AddressLines ∨ n = .ThoroughfareLeadingType ∨ n = .ThoroughfareName) ∧
    (∀ n : TypeName, isRecord n = false → fieldsOf n = []) ∧
    decl .AddressLines = .slice .AddressLine ∧
    decl .ThoroughfareLeadingType = .string ∧ decl .ThoroughfareName = .string ∧
    (∀ s : GoString, hasNamedType .ThoroughfareLeadingType (.str s) = true ∧
      hasNamedType .ThoroughfareName (.str s) = true ∧
      Marshal (.str s) = .str (coerceUTF8 s)) := by
  refine ⟨?_, ?_, not_record_iff, ?_, by rfl, by rfl, by rfl, fun s => ⟨by rfl, by rfl, by rfl⟩⟩
  · intro n h
    rw [text_xor_child n h]
    cases hasChildField n <;> decide
  · intro n f hf
    have h := List.all_eq_true.mp (text_field_shape n) f hf
    simp only [Bool.and_eq_true, Bool.or_eq_true, Bool.not_eq_true', beq_iff_eq,
      beq_eq_false_iff_ne, ne_eq] at h
    refine ⟨?_, ?_⟩
    · have h1 := h.1
      by_cases a : f.name = "Text" <;> by_cases b : f.key = "text" <;> simp_all
    · intro a
      rcases h.2 with h2 | h2
      · exact absurd a h2
      · exact h2
  · intro n h
    rcases (not_record_iff n).mp h with h | h | h <;> rw [h] <;> rfl

/-- C16 as stated fails for ThoroughfareLeadingType and ThoroughfareName.  Both are declared
types of the schema and child elements of Thoroughfare (ThoroughfareName also of
DependentThoroughfare); both are declared as `string`, so they have no child field and no
Text field either, and the claimed equivalence is false for them.  The sibling
ThoroughfareTrailingType is a struct with the fields AttrCode and Text.  A Thoroughfare
with the three of them is written with a JSON string under `thoroughfare_leading_type` and
under `thoroughfare_name`, and with an object holding the key `text` under
`thoroughfare_trailing_type`; a document giving the leading type as an object with a key
`text` is not decoded. -/
theorem leaf_types_without_text :
    (⟨"ThoroughfareLeadingType", .pointer .ThoroughfareLeadingType,
        "thoroughfare_leading_type,omitempty"⟩ ∈ fieldsOf .Thoroughfare ∧
      ⟨"ThoroughfareName", .pointer .ThoroughfareName, "thoroughfare_name,omitempty"⟩ ∈
        fieldsOf .Thoroughfare ∧
      ⟨"ThoroughfareName", .pointer .ThoroughfareName, "thoroughfare_name,omitempty"⟩ ∈
        fieldsOf .DependentThoroughfare) ∧
    (decl .ThoroughfareLeadingType = .string ∧ decl .ThoroughfareName = .string) ∧
    (hasChildField .ThoroughfareLeadingType = false ∧
      hasTextField .ThoroughfareLeadingType = false ∧
      ¬ (hasTextField .ThoroughfareLeadingType = true ↔
        hasChildField .ThoroughfareLeadingType = false)) ∧
    (hasChildField .ThoroughfareName = false ∧ hasTextField .ThoroughfareName = false ∧
      ¬ (hasTextField .ThoroughfareName = true ↔ hasChildField .ThoroughfareName = false)) ∧
    fieldsOf .ThoroughfareTrailingType =
      [⟨"AttrCode", .string, "attr_code,omitempty"⟩, ⟨"Text", .string, "text,omitempty"⟩] ∧
    (hasNamedType .Thoroughfare rueMoliere = true ∧
      Marshal rueMoliere = .obj [
        ("thoroughfare_leading_type", .str (utf8 "Rue")),
        ("thoroughfare_name", .str (utf8 "Moliere")),
        ("thoroughfare_trailing_type", .obj [("text", .str (utf8 "Lane"))])] ∧
      Unmarshal .Thoroughfare (Marshal rueMoliere) = some rueMoliere ∧
      Unmarshal .Thoroughfare (.obj [("thoroughfare_leading_type",
        .obj [("text", .str (utf8 "Rue"))])]) = none) := by
  refine ⟨⟨by decide, by decide, by decide⟩, ⟨by rfl, by rfl⟩, ⟨by decide, by decide, by decide⟩,
    ⟨by decide, by decide, by decide⟩, by rfl, by decide, by rfl, by rfl, by rfl⟩

end xal
